import Mathlib

/-!
Shallow embedding of `src/scope/component-ops/scope-components-importer.ts`
(class `ScopeComponentsImporter`) together with the data model it operates on.

The importer's own methods are translated line by line from the source.
Collaborators that live outside the provided sources (the `BitId`/`BitIds`
identifier model, `sources.getMany`, `scope.writeManyComponentsToModel`,
`remotes.fetch`, `ModelComponent.toComponentVersion`, `splitBy`,
`remoteLanes.syncWithLaneObject`) are modelled from the specification's
interface descriptions; each such definition carries a doc comment saying so.

Effects are made explicit: the local store is threaded as state, the remote
is a scripted sequence of responses, and every observable action (remote
fetch, write-back with its persist flag, raw-object bulk insert, flush,
lane sync) is recorded in an event trace.  Recursion is bounded by fuel;
`none` means the computation did not finish within the given fuel, at any
amount of fuel this models divergence.
-/

/-- Identifier model, from the spec: an identifier is a `(scope, name, version)`
triple; `version` may be symbolic (`latest`) or a concrete tag. -/
structure BitId where
  scope : String
  name : String
  version : Option String
deriving DecidableEq, Repr

/-- Modelled from the spec: an identifier is local iff its scope equals the
importer's own scope name. -/
def BitId.isLocal (id : BitId) (scopeName : String) : Bool :=
  id.scope == scopeName

def BitId.changeVersion (id : BitId) (v : String) : BitId :=
  { id with version := some v }

/-- String form of an identifier (`scope/name@version`). -/
def BitId.idStr (id : BitId) : String :=
  id.scope ++ "/" ++ id.name ++ (match id.version with
    | some v => "@" ++ v
    | none => "")

/-- Component Record, from the spec: full version history of one named
component, an ordered list of known version tags and an optional head
pointer, owned by one scope. -/
structure ModelComponent where
  scope : String
  name : String
  versions : List String
  head : Option String
deriving DecidableEq, Repr

def ModelComponent.listVersions (c : ModelComponent) : List String :=
  c.versions

def ModelComponent.getHead (c : ModelComponent) : Option String :=
  c.head

/-- Modelled from the spec: the latest integrated version of a component
(used when an identifier carries a symbolic version). -/
def ModelComponent.latest (c : ModelComponent) : String :=
  match c.head with
  | some h => h
  | none => c.versions.getLastD "latest"

def ModelComponent.compIdStr (c : ModelComponent) : String :=
  c.scope ++ "/" ++ c.name

/-- Resolved component+version: a Component Record paired with one concrete
version tag. -/
structure ComponentVersion where
  component : ModelComponent
  version : String
deriving DecidableEq, Repr

/-- Modelled from the spec: `ModelComponent.toComponentVersion` pairs the
record with the given version, resolving a missing or symbolic `latest`
version to the latest integrated one. -/
def ModelComponent.toComponentVersion (c : ModelComponent) (v : Option String) :
    ComponentVersion :=
  match v with
  | none => ⟨c, c.latest⟩
  | some s => if s == "latest" then ⟨c, c.latest⟩ else ⟨c, s⟩

def ComponentVersion.id (cv : ComponentVersion) : BitId :=
  ⟨cv.component.scope, cv.component.name, some cv.version⟩

/-- Version Content, from the spec: an immutable snapshot holding the three
flattened dependency identifier lists (runtime, development, extensions). -/
structure VersionObj where
  flattenedDependencies : List BitId
  flattenedDevDependencies : List BitId
  extensionsBitIds : List BitId
deriving DecidableEq, Repr

/-- Dependency Closure Result (`VersionDependencies` in the source). -/
structure VersionDependencies where
  component : ComponentVersion
  dependencies : List ComponentVersion
  devDependencies : List ComponentVersion
  extensionsDependencies : List ComponentVersion
  source : String
deriving DecidableEq, Repr

/-- Modelled from the spec: the concatenation of the three resolved shallow
dependency lists of a Dependency Closure Result. -/
def VersionDependencies.allDependencies (vd : VersionDependencies) :
    List ComponentVersion :=
  vd.dependencies ++ vd.devDependencies ++ vd.extensionsDependencies

/-- Lane, from the spec: a named mutable pointer (per owning scope) to a set
of component+version references. -/
structure Lane where
  scope : String
  name : String
  ids : List BitId
deriving DecidableEq, Repr

def Lane.toBitIds (l : Lane) : List BitId :=
  l.ids

structure RemoteLaneId where
  scope : String
  name : String
deriving DecidableEq, Repr

def RemoteLaneId.idStr (l : RemoteLaneId) : String :=
  l.scope ++ "/" ++ l.name

/-- Key of a Version Content in the local store: owning scope, component
name, version tag. -/
abbrev VKey := String × String × String

/-- The local content-addressed store (external collaborator, modelled from
the spec's Local Store Interface): component records, version contents,
raw objects (by hash) and the remote-lane tracking table. -/
structure Store where
  comps : List ModelComponent
  vers : List (VKey × VersionObj)
  raws : List String
  remoteLanes : List ((String × String) × Lane)
deriving DecidableEq, Repr

def Store.findComp (st : Store) (id : BitId) : Option ModelComponent :=
  st.comps.find? (fun c => c.scope == id.scope && c.name == id.name)

def Store.findVer (st : Store) (k : VKey) : Option VersionObj :=
  (st.vers.find? (fun p => p.1 == k)).map (fun p => p.2)

def ComponentVersion.getVersion (cv : ComponentVersion) (st : Store) :
    Option VersionObj :=
  st.findVer (cv.component.scope, cv.component.name, cv.version)

/-- Entry of `sources.getMany`: an id together with the record found for it
(or nothing).  Modelled from the spec: `lookupMany(ids) → [{id, record|absent}]`,
one entry per id, in order. -/
structure ComponentDef where
  id : BitId
  component : Option ModelComponent
deriving DecidableEq, Repr

/-- Modelled from the spec: `sources.getMany` looks every id up in the local
store; absence is not an error at this layer. -/
def Store.getMany (st : Store) (ids : List BitId) : List ComponentDef :=
  ids.map (fun i => ⟨i, st.findComp i⟩)

/-- Object Transfer Batch: raw content moved across the network boundary in
one round-trip, deserialized into typed records. -/
structure Batch where
  comps : List ModelComponent
  vers : List (VKey × VersionObj)
  lanes : List Lane
  objs : List String
deriving DecidableEq, Repr

def emptyBatch : Batch := ⟨[], [], [], []⟩

/-- Error taxonomy of the importer (from the source's imports and the spec's
error handling design). `typeError` models the unchecked-cast crash on an
absent record. -/
inductive Err where
  | componentNotFound (id : String)
  | dependencyNotFound (id : Option String)
  | remoteScopeNotFound (name : String)
  | permissionDenied (msg : String)
  | showDoctor (msg : String)
  | generalError (msg : String)
  | typeError
deriving DecidableEq, Repr

/-- The `id` field carried by an error object (`e.id` in the source);
absent on errors that do not carry an identifier. -/
def Err.idOf : Err → Option String
  | .componentNotFound i => some i
  | .dependencyNotFound i => i
  | _ => none

/-- Request kind of a remote fetch (`options` argument of `remotes.fetch`):
plain component request, `withoutDependencies`, lane request, raw object
request. -/
inductive FetchKind where
  | component
  | componentNoDeps
  | lane
  | obj
deriving DecidableEq, Repr

/-- Observable actions of the importer. -/
inductive Event where
  | fetch (grouped : List (String × List String)) (kind : FetchKind)
  | write (persist : Bool) (ids : List BitId)
  | addMany (objs : List String)
  | persistCall
  | laneSync (scope : String) (name : String)
deriving DecidableEq, Repr

def Event.isFetch : Event → Bool
  | .fetch _ _ => true
  | _ => false

/-- Full interpreter state: the local store and the scripted remote (the
sequence of responses the remote will give to successive fetches; once
exhausted the remote answers with empty batches, i.e. returns no new
data).  The importer's own scope name never changes and is passed
separately. -/
structure St where
  store : Store
  script : List (Except Err Batch)
deriving Repr

/-- Outcome of a step: `none` is fuel exhaustion (divergence at every fuel),
otherwise a thrown error or a value with the final state and the trace of
observable events, in order. -/
abbrev M (α : Type) : Type := Option (Except Err (α × St × List Event))

def mret {α : Type} (a : α) (st : St) : M α :=
  some (.ok (a, st, []))

def mthrow {α : Type} (e : Err) : M α :=
  some (.error e)

/-- Sequencing: errors and fuel exhaustion abort, traces concatenate. -/
def mbind {α β : Type} (x : M α) (f : α → St → M β) : M β :=
  match x with
  | none => none
  | some (.error e) => some (.error e)
  | some (.ok (a, st, tr)) =>
    match f a st with
    | none => none
    | some (.error e) => some (.error e)
    | some (.ok (b, st2, tr2)) => some (.ok (b, st2, tr ++ tr2))

/-- `R.reject(R.isNil)`: drop nil entries, keep order. -/
def removeNils {α : Type} (l : List (Option α)) : List α :=
  l.filterMap id

/-- Keep-first de-duplication (`R.uniq` / `BitIds.uniqFromArray`). -/
def uniqFirst {α : Type} [BEq α] : List α → List α
  | [] => []
  | a :: rest => a :: (uniqFirst rest).filter (fun b => !(b == a))

/-- `groupByScopeName` from the source: group ids by owning scope name, in
order of first appearance, mapping each scope to the string forms. -/
def groupByScopeName (ids : List BitId) : List (String × List String) :=
  (uniqFirst (ids.map (fun i => i.scope))).map
    (fun s => (s, (ids.filter (fun i => i.scope == s)).map BitId.idStr))

/-- `groupByScopeName` applied to remote lane ids. -/
def groupLaneIdsByScopeName (ids : List RemoteLaneId) : List (String × List String) :=
  (uniqFirst (ids.map (fun i => i.scope))).map
    (fun s => (s, (ids.filter (fun i => i.scope == s)).map RemoteLaneId.idStr))

/-- `BitIds.hasWithoutVersion`: membership ignoring the version field. -/
def hasWithoutVersion (ids : List (Option BitId)) (i : BitId) : Bool :=
  ids.any (fun o => match o with
    | some j => j.scope == i.scope && j.name == i.name
    | none => false)

/-- One remote round-trip: pop the next scripted response (an exhausted
script answers with an empty batch, i.e. no new data); a fetch is always
recorded in the trace. -/
def fetchRemote (grouped : List (String × List String)) (kind : FetchKind)
    (st : St) : M Batch :=
  match st.script with
  | [] => some (.ok (emptyBatch, st, [.fetch grouped kind]))
  | .ok b :: rest => some (.ok (b, { st with script := rest }, [.fetch grouped kind]))
  | .error e :: _ => some (.error e)

def upsertComp (l : List ModelComponent) (c : ModelComponent) : List ModelComponent :=
  c :: l.filter (fun x => !(x.scope == c.scope && x.name == c.name))

def upsertVer (l : List (VKey × VersionObj)) (p : VKey × VersionObj) :
    List (VKey × VersionObj) :=
  p :: l.filter (fun q => !(q.1 == p.1))

def Store.writeBatch (st : Store) (b : Batch) : Store :=
  { st with
    comps := b.comps.foldl upsertComp st.comps
    vers := b.vers.foldl upsertVer st.vers }

/-- Modelled from the spec: `scope.writeManyComponentsToModel` deserializes
an Object Transfer Batch into typed records, writes them into the local
store (respecting `persist`, recorded in the trace) and returns the subset
of the requested ids that are component (non-lane) ids; in this model all
requested ids are component ids, so all of them are returned. -/
def writeManyComponentsToModel (b : Batch) (persist : Bool) (ids : List BitId)
    (st : St) : M (List BitId) :=
  some (.ok (ids, { st with store := st.store.writeBatch b }, [.write persist ids]))

/-- Per-id lookup results still to be satisfied: with `localFetch` disabled
everything is left, otherwise exactly the ids with no local record
(`_getExternalMany` / `_getExternalManyWithoutDependencies` filter). -/
def leftDefs (defs : List ComponentDef) (localFetch : Bool) : List ComponentDef :=
  defs.filter (fun d => !localFetch || d.component.isNone)

/-- The locals loop of `importManyWithoutDependencies` (lines 79-86): each
definition must have a record (`throw ComponentNotFound` otherwise) and is
turned into a `ComponentVersion` at the id's version. -/
def cvsOfDefsChecked : List ComponentDef → Except Err (List ComponentVersion)
  | [] => .ok []
  | d :: rest =>
    match d.component with
    | none => .error (.componentNotFound d.id.idStr)
    | some c =>
      match cvsOfDefsChecked rest with
      | .error e => .error e
      | .ok l => .ok (c.toComponentVersion d.id.version :: l)

/-- The base-case loop of `_getExternalManyWithoutDependencies` (line 349):
the source casts `def.component` without a check, an absent record would
crash; in the base case every record is present so the crash branch is
unreachable. -/
def cvsOfDefsCast : List ComponentDef → Except Err (List ComponentVersion)
  | [] => .ok []
  | d :: rest =>
    match d.component with
    | none => .error .typeError
    | some c =>
      match cvsOfDefsCast rest with
      | .error e => .error e
      | .ok l => .ok (c.toComponentVersion d.id.version :: l)

/-- The expansion loop of `importManyWithAllVersions` (lines 109-121) for a
single closure: every known version tag except the one already imported,
then the head pointer (pushed unconditionally when present). -/
def expandedIdsOfOne (vd : VersionDependencies) : List BitId :=
  let versions := vd.component.component.listVersions
  let versionId := vd.component.id
  let tagIds := removeNils (versions.map (fun v =>
    if v == vd.component.version then none else some (versionId.changeVersion v)))
  match vd.component.component.getHead with
  | some h => tagIds ++ [versionId.changeVersion h]
  | none => tagIds

/-- `allIdsWithAllVersions` accumulated over all closures (lines 108-121). -/
def expandedIds (vds : List VersionDependencies) : List BitId :=
  vds.flatMap expandedIdsOfOne

/-- `dependenciesOnly` of `importManyWithAllVersions` (lines 125-126): all
flattened dependency ids of the accumulated closures whose `(scope, name)`
is not already covered by the original request. -/
def depsOnlyFor (arr : List VersionDependencies) (origIds : List (Option BitId)) :
    List BitId :=
  (arr.flatMap (fun v => v.allDependencies.map ComponentVersion.id)).filter
    (fun i => !(hasWithoutVersion origIds i))

/-- Entry points and internal loops of `ScopeComponentsImporter`; the
`vdsOfDefs` variants are the two `mapSeries` loops over lookup results
(lines 55-58 and 261-263). -/
inductive Call where
  | importMany (ids : List (Option BitId)) (cache persist : Bool)
  | importManyWithoutDependencies (ids : List (Option BitId)) (cache : Bool)
  | importManyWithAllVersions (ids : List (Option BitId)) (cache allDepsVersions : Bool)
  | componentToVersionDependencies (component : ModelComponent) (id : BitId)
  | getExternalMany (ids : List BitId) (localFetch persist : Bool)
  | getExternal (id : BitId) (localFetch : Bool)
  | getExternalManyWithoutDependencies (ids : List BitId) (localFetch : Bool)
  | vdsOfDefsChecked (defs : List ComponentDef)
  | vdsOfDefsCast (defs : List ComponentDef)

/-- Return type of each method. -/
@[reducible] def Call.Ret : Call → Type
  | .importMany .. => List VersionDependencies
  | .importManyWithoutDependencies .. => List ComponentVersion
  | .importManyWithAllVersions .. => List VersionDependencies
  | .componentToVersionDependencies .. => VersionDependencies
  | .getExternalMany .. => List VersionDependencies
  | .getExternal .. => VersionDependencies
  | .getExternalManyWithoutDependencies .. => List ComponentVersion
  | .vdsOfDefsChecked .. => List VersionDependencies
  | .vdsOfDefsCast .. => List VersionDependencies

/-- The importer, translated method by method from the source; `self` is
the importer's own scope name (`this.scope.name`).  Fuel only bounds the
recursion depth; the source performs unbounded recursion, which appears
here as `none` at every fuel. -/
def run (self : String) : (fuel : Nat) → (c : Call) → St → M c.Ret
  | 0, _, _ => none
  | fuel+1, c, st =>
    match c with
    | .importMany ids cache persist =>
      -- lines 47-66
      let idsWithoutNils := removeNils ids
      if idsWithoutNils.isEmpty then mret [] st
      else
        let parts := idsWithoutNils.partition (fun i => i.isLocal self)
        let localDefs := st.store.getMany parts.1
        mbind (run self fuel (.vdsOfDefsChecked localDefs) st) (fun versionDeps st1 =>
          mbind (run self fuel (.getExternalMany parts.2 cache persist) st1)
            (fun externalDeps st2 =>
              mret (versionDeps ++ externalDeps) st2))
    | .importManyWithoutDependencies ids cache =>
      -- lines 68-90; `splitBy` is modelled from the spec (locals = scope
      -- equal to self, externals = the rest, order preserved)
      if ids.isEmpty then mret [] st
      else
        let idsWithoutNils := removeNils ids
        if idsWithoutNils.isEmpty then mret [] st
        else
          let externals := idsWithoutNils.filter (fun i => !(i.isLocal self))
          let locals := idsWithoutNils.filter (fun i => i.isLocal self)
          let localDefs := st.store.getMany locals
          match cvsOfDefsChecked localDefs with
          | .error e => mthrow e
          | .ok componentVersionArr =>
            mbind (run self fuel (.getExternalManyWithoutDependencies externals cache) st)
              (fun externalDeps st1 =>
                mret (componentVersionArr ++ externalDeps) st1)
    | .importManyWithAllVersions ids cache allDepsVersions =>
      -- lines 97-134
      let idsWithoutNils := removeNils ids
      if idsWithoutNils.isEmpty then mret [] st
      else
        mbind (run self fuel (.importMany (idsWithoutNils.map some) cache true) st)
          (fun versionDependenciesArr st1 =>
            let allIdsWithAllVersions := expandedIds versionDependenciesArr
            if allDepsVersions then
              mbind (run self fuel (.importMany (allIdsWithAllVersions.map some) cache true) st1)
                (fun verDepsOfOlderVersions st2 =>
                  let arr := versionDependenciesArr ++ verDepsOfOlderVersions
                  let dependenciesOnly := depsOnlyFor arr ids
                  mbind (run self fuel
                      (.importManyWithAllVersions ((uniqFirst dependenciesOnly).map some) true false) st2)
                    (fun verDepsOfAllFlattenDeps st3 =>
                      mret (arr ++ verDepsOfAllFlattenDeps) st3))
            else
              mbind (run self fuel (.importManyWithoutDependencies (allIdsWithAllVersions.map some) true) st1)
                (fun _ st2 => mret versionDependenciesArr st2))
    | .componentToVersionDependencies component id =>
      -- lines 167-200
      let versionComp := component.toComponentVersion id.version
      let source := id.scope
      match versionComp.getVersion st.store with
      | none =>
        if component.scope == self then
          mthrow (.showDoctor ("Version " ++ versionComp.version ++ " of "
            ++ component.compIdStr ++ " was not found in scope " ++ self))
        else
          run self fuel (.getExternal id false) st
      | some version =>
        mbind (run self fuel (.importManyWithoutDependencies
            (version.flattenedDependencies.map some) true) st)
          (fun dependencies st1 =>
            mbind (run self fuel (.importManyWithoutDependencies
                (version.flattenedDevDependencies.map some) true) st1)
              (fun devDependencies st2 =>
                mbind (run self fuel (.importManyWithoutDependencies
                    (version.extensionsBitIds.map some) true) st2)
                  (fun extensionsDependencies st3 =>
                    mret ⟨versionComp, dependencies, devDependencies,
                      extensionsDependencies, source⟩ st3)))
    | .getExternalMany ids localFetch persist =>
      -- lines 238-275; the recursive call at line 274 passes only the ids,
      -- `localFetch` and `persist` revert to their defaults (both true)
      if ids.isEmpty then mret [] st
      else
        let componentDefs := st.store.getMany ids
        let left := leftDefs componentDefs localFetch
        if left.isEmpty then
          run self fuel (.vdsOfDefsCast componentDefs) st
        else
          mbind (fetchRemote (groupByScopeName (left.map (fun d => d.id))) .component st)
            (fun objectList st1 =>
              mbind (writeManyComponentsToModel objectList persist ids st1)
                (fun nonLaneIds st2 =>
                  run self fuel (.getExternalMany nonLaneIds true true) st2))
    | .getExternal id localFetch =>
      -- lines 281-300
      match st.store.findComp id with
      | some c =>
        if localFetch then run self fuel (.componentToVersionDependencies c id) st
        else
          mbind (fetchRemote (groupByScopeName [id]) .component st)
            (fun objectList st1 =>
              mbind (writeManyComponentsToModel objectList true [id] st1)
                (fun _ st2 => run self fuel (.getExternal id true) st2))
      | none =>
        mbind (fetchRemote (groupByScopeName [id]) .component st)
          (fun objectList st1 =>
            mbind (writeManyComponentsToModel objectList true [id] st1)
              (fun _ st2 => run self fuel (.getExternal id true) st2))
    | .getExternalManyWithoutDependencies ids localFetch =>
      -- lines 323-363; the write-back at line 359 passes `undefined` for
      -- `persist`, which the store interface defaults to true
      if ids.isEmpty then mret [] st
      else
        let defs := st.store.getMany ids
        let left := leftDefs defs localFetch
        if left.isEmpty then
          match cvsOfDefsCast defs with
          | .error e => mthrow e
          | .ok l => mret l st
        else
          mbind (fetchRemote (groupByScopeName (left.map (fun d => d.id))) .componentNoDeps st)
            (fun objectList st1 =>
              mbind (writeManyComponentsToModel objectList true ids st1)
                (fun nonLaneIds st2 =>
                  run self fuel (.getExternalManyWithoutDependencies nonLaneIds true) st2))
    | .vdsOfDefsChecked defs =>
      -- lines 55-58: sequential loop, a missing record throws ComponentNotFound
      match defs with
      | [] => mret [] st
      | d :: rest =>
        match d.component with
        | none => mthrow (.componentNotFound d.id.idStr)
        | some c =>
          mbind (run self fuel (.componentToVersionDependencies c d.id) st)
            (fun vd st1 =>
              mbind (run self fuel (.vdsOfDefsChecked rest) st1)
                (fun vds st2 => mret (vd :: vds) st2))
    | .vdsOfDefsCast defs =>
      -- lines 261-263: sequential loop over lookup results, unchecked cast
      match defs with
      | [] => mret [] st
      | d :: rest =>
        match d.component with
        | none => mthrow .typeError
        | some c =>
          mbind (run self fuel (.componentToVersionDependencies c d.id) st)
            (fun vd st1 =>
              mbind (run self fuel (.vdsOfDefsCast rest) st1)
                (fun vds st2 => mret (vd :: vds) st2))

/-- `importDependencies` (lines 136-146): failures of the underlying import
are wrapped in `DependencyNotFound e.id`, except `RemoteScopeNotFound` and
`PermissionDenied`, which pass through unwrapped. -/
def importDependencies (self : String) (fuel : Nat) (st : St)
    (dependencies : List (Option BitId)) : M (List VersionDependencies) :=
  match run self fuel (.importMany dependencies true true) st with
  | none => none
  | some (.ok r) => some (.ok r)
  | some (.error e) =>
    match e with
    | .remoteScopeNotFound s => some (.error (.remoteScopeNotFound s))
    | .permissionDenied s => some (.error (.permissionDenied s))
    | _ => some (.error (.dependencyNotFound e.idOf))

/-- Modelled from the spec: `remoteLanes.syncWithLaneObject` merges a lane's
pointer set into the remote-lane tracking table keyed by (owning scope,
lane name); a pure pointer update. -/
def syncWithLaneObject (store : Store) (lane : Lane) : Store :=
  { store with
    remoteLanes := ((lane.scope, lane.name), lane)
      :: store.remoteLanes.filter (fun p => !(p.1.1 == lane.scope && p.1.2 == lane.name)) }

/-- `importLanes` (lines 156-165): one remote fetch with request type
`lane`, then every fetched lane is synced into the tracking table. -/
def importLanes (st : St) (remoteLaneIds : List RemoteLaneId) : M (List Lane) :=
  mbind (fetchRemote (groupLaneIdsByScopeName remoteLaneIds) .lane st)
    (fun objectList st1 =>
      let lanes := objectList.lanes
      some (.ok (lanes,
        { st1 with store := lanes.foldl syncWithLaneObject st1.store },
        lanes.map (fun l => Event.laneSync l.scope l.name))))

/-- `importFromLanes` (lines 148-154): fetch the lanes, flatten and
de-duplicate the referenced ids, import them with all versions with the
cache flag false. -/
def importFromLanes (self : String) (fuel : Nat) (st : St)
    (remoteLaneIds : List RemoteLaneId) : M (List Lane) :=
  mbind (importLanes st remoteLaneIds) (fun lanes st1 =>
    let bitIds := uniqFirst ((lanes.map Lane.toBitIds).flatten)
    mbind (run self fuel (.importManyWithAllVersions (bitIds.map some) false false) st1)
      (fun _ st2 => mret lanes st2))

/-- The per-scope de-duplicated missing hashes of `importManyObjects`
(lines 385-394): for each scope, the unique requested hashes that are not
already in the local store; scopes with nothing missing are dropped. -/
def missingGroups (store : Store) (groupedHashes : List (String × List String)) :
    List (String × List String) :=
  (groupedHashes.map (fun p =>
    (p.1, (uniqFirst p.2).filter (fun h => !(store.raws.contains h))))).filter
    (fun p => !p.2.isEmpty)

/-- `importManyObjects` (lines 384-401): dedupe and keep only locally
missing hashes per scope; when nothing is missing return with no remote
fetch and no flush, otherwise one fetch with request type `object`, one
bulk insert, and a single flush at the end. -/
def importManyObjects (st : St) (groupedHashes : List (String × List String)) :
    M Unit :=
  let groupedHashedMissing := missingGroups st.store groupedHashes
  if groupedHashedMissing.isEmpty then mret () st
  else
    mbind (fetchRemote groupedHashedMissing .obj st) (fun objectList st1 =>
      some (.ok ((),
        { st1 with store := { st1.store with raws := st1.store.raws ++ objectList.objs } },
        [.addMany objectList.objs, .persistCall])))

/-- Trace of a finished, successful computation. -/
def traceOf {α : Type} (x : M α) : List Event :=
  match x with
  | some (.ok (_, _, tr)) => tr
  | _ => []

def isOk {α : Type} (x : M α) : Bool :=
  match x with
  | some (.ok _) => true
  | _ => false

def valOf {α : Type} (x : M α) (dflt : α) : α :=
  match x with
  | some (.ok (a, _, _)) => a
  | _ => dflt

def errOf {α : Type} (x : M α) : Option Err :=
  match x with
  | some (.error e) => some e
  | _ => none

/-- Persist flags of the write-backs of a trace, in order. -/
def writesOf (tr : List Event) : List Bool :=
  tr.filterMap (fun e => match e with
    | .write p _ => some p
    | _ => none)

/-- The two error kinds `importDependencies` passes through unwrapped. -/
def Err.isPassthrough : Err → Bool
  | .remoteScopeNotFound _ => true
  | .permissionDenied _ => true
  | _ => false

/-- Every Version Content of the store has dependency lists that are wholly
locally owned (no external identifiers anywhere in the stored closures). -/
def storeAllLocal (self : String) (store : Store) : Bool :=
  store.vers.all (fun p =>
    p.2.flattenedDependencies.all (fun i => i.isLocal self) &&
    p.2.flattenedDevDependencies.all (fun i => i.isLocal self) &&
    p.2.extensionsBitIds.all (fun i => i.isLocal self))

/-- An identifier with a concrete (non-symbolic) version tag. -/
def BitId.isConcrete (i : BitId) : Bool :=
  match i.version with
  | some v => !(v == "latest")
  | none => false

/-- All identifiers of a list carry concrete version tags. -/
def allConcrete (l : List BitId) : Bool :=
  l.all BitId.isConcrete


def fxAId : BitId := ⟨"r", "a", some "0.0.1"⟩
def fxBId : BitId := ⟨"r", "b", some "0.0.1"⟩
def fxXId : BitId := ⟨"me", "x", some "0.0.1"⟩
def fxYId : BitId := ⟨"me", "y", some "0.0.1"⟩
def fxCompA : ModelComponent := ⟨"r", "a", ["0.0.1"], none⟩
def fxCompB : ModelComponent := ⟨"r", "b", ["0.0.1"], none⟩
def fxCompX : ModelComponent := ⟨"me", "x", ["0.0.1"], none⟩
def fxCompY : ModelComponent := ⟨"me", "y", ["0.0.1"], none⟩
def fxVerEmpty : VersionObj := ⟨[], [], []⟩

def fxStC1 : St := ⟨⟨[], [], [], []⟩, []⟩

def fxStC2 : St := ⟨⟨[fxCompX], [(("me", "x", "0.0.1"), fxVerEmpty)], [], []⟩, []⟩

def fxStC3 : St :=
  ⟨⟨[fxCompX], [(("me", "x", "0.0.1"), ⟨[fxAId], [], []⟩)], [], []⟩,
   [.ok ⟨[fxCompA], [(("r", "a", "0.0.1"), fxVerEmpty)], [], []⟩]⟩

def fxStC3w : St :=
  ⟨⟨[fxCompX, fxCompY],
    [(("me", "x", "0.0.1"), ⟨[fxYId], [], []⟩), (("me", "y", "0.0.1"), fxVerEmpty)],
    [], []⟩, []⟩

def fxVerMixed : VersionObj := ⟨[fxAId, fxYId], [], []⟩

def fxStC4 : St :=
  ⟨⟨[fxCompX, fxCompY, fxCompA],
    [(("me", "x", "0.0.1"), fxVerMixed), (("me", "y", "0.0.1"), fxVerEmpty),
     (("r", "a", "0.0.1"), fxVerEmpty)],
    [], []⟩, []⟩

def fxDfltVD : VersionDependencies := ⟨⟨fxCompX, "0.0.1"⟩, [], [], [], ""⟩

def fxStC5 : St :=
  ⟨⟨[], [], [], []⟩,
   [.ok ⟨[fxCompA], [(("r", "a", "0.0.1"), fxVerEmpty)], [], []⟩,
    .ok ⟨[fxCompB], [(("r", "b", "0.0.1"), fxVerEmpty)], [], []⟩]⟩

def fxStC6 : St := ⟨⟨[fxCompA], [], [], []⟩, []⟩

def fxStC7 : St := ⟨⟨[], [], [], []⟩, [.error (.remoteScopeNotFound "r")]⟩

def fxVdC8 : VersionDependencies :=
  ⟨⟨⟨"me", "x", ["0.0.1", "0.0.2"], some "0.0.2"⟩, "0.0.2"⟩, [], [], [], "me"⟩

def fxStC9 : St := ⟨⟨[], [], ["h2", "h3"], []⟩, [.ok ⟨[], [], [], ["h1"]⟩]⟩
def fxGroupedC9 : List (String × List String) := [("r", ["h1", "h1", "h2"]), ("s", ["h3"])]

def fxLane : Lane := ⟨"r", "dev", [fxAId]⟩
def fxStC10 : St :=
  ⟨⟨[fxCompA], [(("r", "a", "0.0.1"), fxVerEmpty)], [], []⟩,
   [.ok ⟨[], [], [fxLane], []⟩, .ok ⟨[fxCompA], [(("r", "a", "0.0.1"), fxVerEmpty)], [], []⟩]⟩

theorem mbind_ok {α β : Type} {x : M α} {f : α → St → M β} {b : β} {st2 : St}
    {tr : List Event} :
    mbind x f = some (.ok (b, st2, tr)) ↔
      ∃ a st1 tr1 tr2, x = some (.ok (a, st1, tr1)) ∧ f a st1 = some (.ok (b, st2, tr2))
        ∧ tr = tr1 ++ tr2 := by
  constructor
  · intro h
    cases x with
    | none => simp [mbind] at h
    | some v =>
      cases v with
      | error e => simp [mbind] at h
      | ok t =>
        obtain ⟨a, st1, tr1⟩ := t
        cases hf : f a st1 with
        | none => simp [mbind, hf] at h
        | some w =>
          cases w with
          | error e => simp [mbind, hf] at h
          | ok t2 =>
            obtain ⟨b2, st3, tr2⟩ := t2
            simp only [mbind, hf, Option.some.injEq, Except.ok.injEq, Prod.mk.injEq] at h
            obtain ⟨hb, hst, htr⟩ := h
            exact ⟨a, st1, tr1, tr2, rfl, by rw [hf, hb, hst], htr.symm⟩
  · rintro ⟨a, st1, tr1, tr2, hx, hf, htr⟩
    rw [hx]
    simp [mbind, hf, htr]

theorem getMany_map_id (st : Store) (ids : List BitId) :
    (st.getMany ids).map (fun d => d.id) = ids := by
  simp [Store.getMany, List.map_map]
  exact List.map_id ids

theorem getMany_length (st : Store) (ids : List BitId) :
    (st.getMany ids).length = ids.length := by
  simp [Store.getMany]

theorem removeNils_map_some {α : Type} (l : List α) : removeNils (l.map some) = l := by
  simp [removeNils, List.filterMap_map]

theorem findComp_fields {st : Store} {i : BitId} {c : ModelComponent}
    (h : st.findComp i = some c) : c.scope = i.scope ∧ c.name = i.name := by
  have h2 := List.find?_some h
  simpa using h2

/-- C1: the spec demands that a remote fetch returning no new data for a
non-empty residual be a terminal no-progress failure; the source's
`_getExternalMany` instead recurses forever.  With a remote that always
answers an empty batch and at least one identifier that has no local
record, the resolver finishes at no recursion depth whatsoever: at every
fuel the interpreter returns `none` (divergence), never a result and never
a distinct error. -/
theorem claimC1_no_progress_diverges :
    ∀ (self : String) (fuel : Nat) (st : St) (ids : List BitId) (lf p : Bool),
    st.script = [] → (∃ i, i ∈ ids ∧ st.store.findComp i = none) →
    run self fuel (.getExternalMany ids lf p) st = none := by
  intro self fuel
  induction fuel with
  | zero => intro st ids lf p h1 h2; rfl
  | succ n ih =>
    intro st ids lf p h1 h2
    obtain ⟨i, hmem, hnone⟩ := h2
    have hidsE : ids.isEmpty = false := by
      cases ids with
      | nil => cases hmem
      | cons a l => rfl
    have hd : (⟨i, none⟩ : ComponentDef) ∈ leftDefs (st.store.getMany ids) lf := by
      apply List.mem_filter.mpr
      refine ⟨List.mem_map.mpr ⟨i, hmem, by rw [hnone]⟩, by simp⟩
    have hleft : (leftDefs (st.store.getMany ids) lf).isEmpty = false := by
      cases hl : leftDefs (st.store.getMany ids) lf with
      | nil => rw [hl] at hd; cases hd
      | cons a l => rfl
    have hrec := ih st ids true true h1 ⟨i, hmem, hnone⟩
    simp only [run, hidsE, hleft, Bool.false_eq_true, if_false]
    simp only [fetchRemote, h1, mbind, writeManyComponentsToModel]
    have hwb : st.store.writeBatch emptyBatch = st.store := rfl
    have heta : ({ store := st.store, script := ([] : List (Except Err Batch)) } : St) = st := by
      rw [← h1]
    simp only [hwb, heta, hrec]

theorem run_length (self : String) :
    ∀ fuel : Nat,
      (∀ st ids lf p r st2 tr,
        run self fuel (.getExternalMany ids lf p) st = some (.ok (r, st2, tr)) →
        r.length = ids.length)
    ∧ (∀ st defs r st2 tr,
        run self fuel (.vdsOfDefsChecked defs) st = some (.ok (r, st2, tr)) →
        r.length = defs.length)
    ∧ (∀ st defs r st2 tr,
        run self fuel (.vdsOfDefsCast defs) st = some (.ok (r, st2, tr)) →
        r.length = defs.length) := by
  intro fuel
  induction fuel with
  | zero =>
    refine ⟨?_, ?_, ?_⟩
    · intro st ids lf p r st2 tr h; simp [run] at h
    · intro st defs r st2 tr h; simp [run] at h
    · intro st defs r st2 tr h; simp [run] at h
  | succ n ih =>
    obtain ⟨ihE, ihChk, ihCast⟩ := ih
    refine ⟨?_, ?_, ?_⟩
    · intro st ids lf p r st2 tr h
      cases hids : ids.isEmpty with
      | true =>
        simp only [run, hids, if_true, mret, Option.some.injEq, Except.ok.injEq,
          Prod.mk.injEq] at h
        obtain ⟨hr, _, _⟩ := h
        rw [← hr, List.isEmpty_iff.mp hids]
        rfl
      | false =>
        simp only [run, hids, Bool.false_eq_true, if_false] at h
        cases hleft : (leftDefs (st.store.getMany ids) lf).isEmpty with
        | true =>
          rw [hleft] at h
          simp only [eq_self_iff_true, if_true] at h
          have := ihCast st (st.store.getMany ids) r st2 tr h
          rw [this, getMany_length]
        | false =>
          rw [hleft] at h
          simp only [Bool.false_eq_true, if_false] at h
          obtain ⟨b, stf, tr1, tr2, hfetch, hrest, htr⟩ := mbind_ok.mp h
          obtain ⟨nonLane, stw, tr3, tr4, hwrite, hrun, htr2⟩ := mbind_ok.mp hrest
          simp only [writeManyComponentsToModel, Option.some.injEq, Except.ok.injEq,
            Prod.mk.injEq] at hwrite
          obtain ⟨hnl, _, _⟩ := hwrite
          rw [← hnl] at hrun
          exact (ihE stw ids true true r st2 tr4 hrun)
    · intro st defs r st2 tr h
      cases defs with
      | nil =>
        simp only [run, mret, Option.some.injEq, Except.ok.injEq, Prod.mk.injEq] at h
        obtain ⟨hr, _, _⟩ := h
        rw [← hr]
        rfl
      | cons d rest =>
        simp only [run] at h
        cases hc : d.component with
        | none => rw [hc] at h; simp [mthrow] at h
        | some c =>
          rw [hc] at h
          obtain ⟨vd, st1, tr1, tr2, hvd, hrest, htr⟩ := mbind_ok.mp h
          obtain ⟨vds, stx, tr3, tr4, hvds, hret, htr2⟩ := mbind_ok.mp hrest
          simp only [mret, Option.some.injEq, Except.ok.injEq, Prod.mk.injEq] at hret
          obtain ⟨hr, _, _⟩ := hret
          rw [← hr]
          have := ihChk st1 rest vds stx tr3 hvds
          simp [this]
    · intro st defs r st2 tr h
      cases defs with
      | nil =>
        simp only [run, mret, Option.some.injEq, Except.ok.injEq, Prod.mk.injEq] at h
        obtain ⟨hr, _, _⟩ := h
        rw [← hr]
        rfl
      | cons d rest =>
        simp only [run] at h
        cases hc : d.component with
        | none => rw [hc] at h; simp [mthrow] at h
        | some c =>
          rw [hc] at h
          obtain ⟨vd, st1, tr1, tr2, hvd, hrest, htr⟩ := mbind_ok.mp h
          obtain ⟨vds, stx, tr3, tr4, hvds, hret, htr2⟩ := mbind_ok.mp hrest
          simp only [mret, Option.some.injEq, Except.ok.injEq, Prod.mk.injEq] at hret
          obtain ⟨hr, _, _⟩ := hret
          rw [← hr]
          have := ihCast st1 rest vds stx tr3 hvds
          simp [this]

/-- C2: coverage of `importMany`.  An input that is empty after nil removal
returns the empty list (with no effects), and any successful run on a
duplicate-free input returns exactly one Dependency Closure Result per
non-nil identifier: the result count equals the number of unique non-nil
ids. -/
theorem claimC2_coverage_count :
    (∀ (self : String) (n : Nat) (st : St) (ids : List (Option BitId)) (cache persist : Bool),
      removeNils ids = [] →
      run self (n+1) (.importMany ids cache persist) st = some (.ok ([], st, [])))
  ∧ (∀ (self : String) (n : Nat) (st : St) (ids : List (Option BitId)) (cache persist : Bool)
      (r : List VersionDependencies) (st2 : St) (tr : List Event),
      (removeNils ids).Nodup →
      run self n (.importMany ids cache persist) st = some (.ok (r, st2, tr)) →
      r.length = (removeNils ids).length) := by
  constructor
  · intro self n st ids cache persist h
    simp only [run, h, List.isEmpty_nil, if_true, mret]
  · intro self n st ids cache persist r st2 tr hnd h
    cases n with
    | zero => simp [run] at h
    | succ m =>
      cases hids : (removeNils ids).isEmpty with
      | true =>
        simp only [run, hids, if_true, mret, Option.some.injEq, Except.ok.injEq,
          Prod.mk.injEq] at h
        obtain ⟨hr, _, _⟩ := h
        rw [← hr, List.isEmpty_iff.mp hids]
        rfl
      | false =>
        simp only [run, hids, Bool.false_eq_true, if_false] at h
        obtain ⟨vds, st1, tr1, tr2, hvds, hrest, htr⟩ := mbind_ok.mp h
        obtain ⟨ext, stx, tr3, tr4, hext, hret, htr2⟩ := mbind_ok.mp hrest
        simp only [mret, Option.some.injEq, Except.ok.injEq, Prod.mk.injEq] at hret
        obtain ⟨hr, _, _⟩ := hret
        rw [← hr]
        have h1 := (run_length self m).2.1 _ _ _ _ _ hvds
        have h2 := (run_length self m).1 _ _ _ _ _ _ _ hext
        rw [getMany_length] at h1
        have hp : ((removeNils ids).partition (fun i => i.isLocal self)).1.length
            + ((removeNils ids).partition (fun i => i.isLocal self)).2.length
            = (removeNils ids).length := by
          rw [List.partition_eq_filter_filter]
          simpa using
            (List.length_eq_length_filter_add (l := removeNils ids)
              (fun i => i.isLocal self)).symm
        rw [List.length_append, h1, h2]
        exact hp

theorem getExternalMany_nil {self : String} {fuel : Nat} {st : St} {lf p : Bool}
    {r : List VersionDependencies} {st2 : St} {tr : List Event}
    (h : run self fuel (.getExternalMany [] lf p) st = some (.ok (r, st2, tr))) :
    r = [] ∧ st2 = st ∧ tr = [] := by
  cases fuel with
  | zero => simp [run] at h
  | succ n =>
    simp only [run, List.isEmpty_nil, if_true, mret, Option.some.injEq, Except.ok.injEq,
      Prod.mk.injEq] at h
    obtain ⟨h1, h2, h3⟩ := h
    exact ⟨h1.symm, h2.symm, h3.symm⟩

theorem getExternalManyWoDeps_nil {self : String} {fuel : Nat} {st : St} {lf : Bool}
    {r : List ComponentVersion} {st2 : St} {tr : List Event}
    (h : run self fuel (.getExternalManyWithoutDependencies [] lf) st = some (.ok (r, st2, tr))) :
    r = [] ∧ st2 = st ∧ tr = [] := by
  cases fuel with
  | zero => simp [run] at h
  | succ n =>
    simp only [run, List.isEmpty_nil, if_true, mret, Option.some.injEq, Except.ok.injEq,
      Prod.mk.injEq] at h
    obtain ⟨h1, h2, h3⟩ := h
    exact ⟨h1.symm, h2.symm, h3.symm⟩

theorem isLocal_iff {i : BitId} {self : String} : i.isLocal self = true ↔ i.scope = self := by
  simp [BitId.isLocal]

theorem storeAllLocal_lists {self : String} {store : Store} {k : VKey} {v : VersionObj}
    (hall : storeAllLocal self store = true) (h : store.findVer k = some v) :
    (∀ i ∈ v.flattenedDependencies, i.isLocal self = true) ∧
    (∀ i ∈ v.flattenedDevDependencies, i.isLocal self = true) ∧
    (∀ i ∈ v.extensionsBitIds, i.isLocal self = true) := by
  unfold Store.findVer at h
  cases hf : store.vers.find? (fun p => p.1 == k) with
  | none => rw [hf] at h; simp at h
  | some q =>
    rw [hf] at h
    simp only [Option.map_some', Option.some.injEq] at h
    have hq := List.mem_of_find?_eq_some hf
    unfold storeAllLocal at hall
    have := List.all_eq_true.mp hall q hq
    simp only [Bool.and_eq_true] at this
    obtain ⟨⟨h1, h2⟩, h3⟩ := this
    rw [← h]
    exact ⟨List.all_eq_true.mp h1, List.all_eq_true.mp h2, List.all_eq_true.mp h3⟩

theorem run_all_local (self : String) : ∀ fuel : Nat,
    (∀ st ids cache persist r st2 tr,
      storeAllLocal self st.store = true →
      (∀ i ∈ removeNils ids, i.isLocal self = true) →
      run self fuel (.importMany ids cache persist) st = some (.ok (r, st2, tr)) →
      st2 = st ∧ tr.all (fun e => !e.isFetch) = true)
  ∧ (∀ st c id r st2 tr,
      storeAllLocal self st.store = true →
      c.scope = self →
      run self fuel (.componentToVersionDependencies c id) st = some (.ok (r, st2, tr)) →
      st2 = st ∧ tr.all (fun e => !e.isFetch) = true)
  ∧ (∀ st defs r st2 tr,
      storeAllLocal self st.store = true →
      (∀ d ∈ defs, ∀ cc, d.component = some cc → cc.scope = self) →
      run self fuel (.vdsOfDefsChecked defs) st = some (.ok (r, st2, tr)) →
      st2 = st ∧ tr.all (fun e => !e.isFetch) = true)
  ∧ (∀ st ids cache r st2 tr,
      storeAllLocal self st.store = true →
      (∀ i ∈ removeNils ids, i.isLocal self = true) →
      run self fuel (.importManyWithoutDependencies ids cache) st = some (.ok (r, st2, tr)) →
      st2 = st ∧ tr.all (fun e => !e.isFetch) = true) := by
  intro fuel
  induction fuel with
  | zero =>
    refine ⟨?_, ?_, ?_, ?_⟩
    · intro st ids cache persist r st2 tr _ _ h; simp [run] at h
    · intro st c id r st2 tr _ _ h; simp [run] at h
    · intro st defs r st2 tr _ _ h; simp [run] at h
    · intro st ids cache r st2 tr _ _ h; simp [run] at h
  | succ n ih =>
    obtain ⟨ihIM, ihCVD, ihChk, ihWO⟩ := ih
    refine ⟨?_, ?_, ?_, ?_⟩
    · -- importMany
      intro st ids cache persist r st2 tr hall hloc h
      cases hids : (removeNils ids).isEmpty with
      | true =>
        simp only [run, hids, if_true, mret, Option.some.injEq, Except.ok.injEq,
          Prod.mk.injEq] at h
        obtain ⟨_, h2, h3⟩ := h
        exact ⟨h2.symm, by rw [← h3]; rfl⟩
      | false =>
        simp only [run, hids, Bool.false_eq_true, if_false] at h
        obtain ⟨vds, st1, tr1, tr2, hvds, hrest, htr⟩ := mbind_ok.mp h
        obtain ⟨ext, stx, tr3, tr4, hext, hret, htr2⟩ := mbind_ok.mp hrest
        simp only [mret, Option.some.injEq, Except.ok.injEq, Prod.mk.injEq] at hret
        obtain ⟨_, hstx, htr4⟩ := hret
        have hdefs : ∀ d ∈ st.store.getMany
            ((removeNils ids).partition (fun i => i.isLocal self)).1,
            ∀ cc, d.component = some cc → cc.scope = self := by
          intro d hd cc hcc
          unfold Store.getMany at hd
          obtain ⟨i, hi, hdi⟩ := List.mem_map.mp hd
          rw [List.partition_eq_filter_filter] at hi
          have hil := (List.mem_filter.mp hi).2
          rw [← hdi] at hcc
          simp only at hcc
          have := (findComp_fields hcc).1
          rw [this]
          exact isLocal_iff.mp hil
        obtain ⟨hst1, htr1f⟩ := ihChk st _ vds st1 tr1 hall hdefs hvds
        have hpe : ((removeNils ids).partition (fun i => i.isLocal self)).2 = [] := by
          rw [List.partition_eq_filter_filter]
          simp only
          apply List.filter_eq_nil_iff.mpr
          intro a ha
          simp [hloc a ha]
        rw [hpe] at hext
        obtain ⟨_, hstxeq, htr4e⟩ := getExternalMany_nil hext
        refine ⟨by rw [← hstx, hstxeq, hst1], ?_⟩
        rw [htr, htr2, htr4e, ← htr4]
        simpa using htr1f
    · -- componentToVersionDependencies
      intro st c id r st2 tr hall hsc h
      simp only [run] at h
      cases hv : (c.toComponentVersion id.version).getVersion st.store with
      | none =>
        rw [hv] at h
        rw [hsc] at h
        simp [mthrow] at h
      | some version =>
        rw [hv] at h
        obtain ⟨d1, st1, tr1, tr2, hd1, hrest, htr⟩ := mbind_ok.mp h
        obtain ⟨d2, st2x, tr3, tr4, hd2, hrest2, htr2⟩ := mbind_ok.mp hrest
        obtain ⟨d3, st3x, tr5, tr6, hd3, hret, htr3⟩ := mbind_ok.mp hrest2
        simp only [mret, Option.some.injEq, Except.ok.injEq, Prod.mk.injEq] at hret
        obtain ⟨_, hst3, htr6⟩ := hret
        have hv2 : st.store.findVer ((c.toComponentVersion id.version).component.scope,
            (c.toComponentVersion id.version).component.name,
            (c.toComponentVersion id.version).version) = some version := hv
        obtain ⟨hl1, hl2, hl3⟩ := storeAllLocal_lists hall hv2
        obtain ⟨hst1, hf1⟩ := ihWO st (version.flattenedDependencies.map some) true d1 st1 tr1
          hall (by rw [removeNils_map_some]; exact hl1) hd1
        have hall1 : storeAllLocal self st1.store = true := by rw [hst1]; exact hall
        obtain ⟨hst2, hf2⟩ := ihWO st1 (version.flattenedDevDependencies.map some) true d2 st2x tr3
          hall1 (by rw [removeNils_map_some]; exact hl2) hd2
        have hall2 : storeAllLocal self st2x.store = true := by rw [hst2]; exact hall1
        obtain ⟨hst3x, hf3⟩ := ihWO st2x (version.extensionsBitIds.map some) true d3 st3x tr5
          hall2 (by rw [removeNils_map_some]; exact hl3) hd3
        refine ⟨by rw [← hst3, hst3x, hst2, hst1], ?_⟩
        rw [htr, htr2, htr3, ← htr6]
        simp only [List.append_nil, List.all_append, Bool.and_eq_true]
        exact ⟨hf1, hf2, hf3⟩
    · -- vdsOfDefsChecked
      intro st defs r st2 tr hall hdefs h
      cases defs with
      | nil =>
        simp only [run, mret, Option.some.injEq, Except.ok.injEq, Prod.mk.injEq] at h
        obtain ⟨_, h2, h3⟩ := h
        exact ⟨h2.symm, by rw [← h3]; rfl⟩
      | cons d rest =>
        simp only [run] at h
        cases hc : d.component with
        | none => rw [hc] at h; simp [mthrow] at h
        | some c =>
          rw [hc] at h
          obtain ⟨vd, st1, tr1, tr2, hvd, hrest, htr⟩ := mbind_ok.mp h
          obtain ⟨vds, stx, tr3, tr4, hvds, hret, htr2⟩ := mbind_ok.mp hrest
          simp only [mret, Option.some.injEq, Except.ok.injEq, Prod.mk.injEq] at hret
          obtain ⟨_, hstx, htr4⟩ := hret
          have hcs : c.scope = self := hdefs d (List.mem_cons_self d rest) c hc
          obtain ⟨hst1, hf1⟩ := ihCVD st c d.id vd st1 tr1 hall hcs hvd
          have hall1 : storeAllLocal self st1.store = true := by rw [hst1]; exact hall
          have hdefs1 : ∀ x ∈ rest, ∀ cc, x.component = some cc → cc.scope = self := by
            intro x hx cc hcc
            exact hdefs x (List.mem_cons_of_mem d hx) cc hcc
          obtain ⟨hstx1, hf2⟩ := ihChk st1 rest vds stx tr3 hall1 hdefs1 hvds
          refine ⟨by rw [← hstx, hstx1, hst1], ?_⟩
          rw [htr, htr2, ← htr4]
          simp only [List.append_nil, List.all_append, Bool.and_eq_true]
          exact ⟨hf1, hf2⟩
    · -- importManyWithoutDependencies
      intro st ids cache r st2 tr hall hloc h
      cases hids0 : ids.isEmpty with
      | true =>
        simp only [run, hids0, if_true, mret, Option.some.injEq, Except.ok.injEq,
          Prod.mk.injEq] at h
        obtain ⟨_, h2, h3⟩ := h
        exact ⟨h2.symm, by rw [← h3]; rfl⟩
      | false =>
        cases hidsN : (removeNils ids).isEmpty with
        | true =>
          simp only [run, hids0, hidsN, Bool.false_eq_true, if_false, if_true, mret,
            Option.some.injEq, Except.ok.injEq, Prod.mk.injEq] at h
          obtain ⟨_, h2, h3⟩ := h
          exact ⟨h2.symm, by rw [← h3]; rfl⟩
        | false =>
          simp only [run, hids0, hidsN, Bool.false_eq_true, if_false] at h
          cases hcv : cvsOfDefsChecked (st.store.getMany
              ((removeNils ids).filter (fun i => i.isLocal self))) with
          | error e => rw [hcv] at h; simp [mthrow] at h
          | ok arr =>
            rw [hcv] at h
            obtain ⟨ext, st1, tr1, tr2, hext, hret, htr⟩ := mbind_ok.mp h
            simp only [mret, Option.some.injEq, Except.ok.injEq, Prod.mk.injEq] at hret
            obtain ⟨_, hst1, htr2⟩ := hret
            have hpe : (removeNils ids).filter (fun i => !(i.isLocal self)) = [] := by
              apply List.filter_eq_nil_iff.mpr
              intro a ha
              simp [hloc a ha]
            rw [hpe] at hext
            obtain ⟨_, hstx, htrx⟩ := getExternalManyWoDeps_nil hext
            refine ⟨by rw [← hst1, hstx], ?_⟩
            rw [htr, htrx, ← htr2]
            rfl

theorem mbind_head {α β : Type} {x : M α} {f : α → St → M β} {a : α} {st1 : St} {ev : Event}
    (hx : x = some (.ok (a, st1, [ev]))) (hok : isOk (mbind x f) = true) :
    (traceOf (mbind x f)).head? = some ev := by
  rw [hx] at hok ⊢
  cases hf : f a st1 with
  | none => simp [mbind, hf, isOk] at hok
  | some v =>
    cases v with
    | error e => simp [mbind, hf, isOk] at hok
    | ok t =>
      obtain ⟨b2, st3, tr2⟩ := t
      simp [mbind, hf, traceOf]

/-- C3 (amended): local-only no-network.  If every requested id is local
and every Version Content stored locally has wholly local dependency
lists, a run of `importMany` performs no remote fetch; moreover any fetch
`_getExternalMany` does issue as its first action carries the `left` ids
grouped by owning scope name (`groupByScopeName`).  The amendment is
needed because a local component whose flattened dependency lists contain
external ids does trigger a fetch during dependency expansion, refuting
the unconditional claim (see the counterexample). -/
theorem claimC3_local_only_no_fetch_amended :
    (∀ (self : String) (n : Nat) (st : St) (ids : List (Option BitId)) (cache persist : Bool),
      storeAllLocal self st.store = true →
      (∀ i ∈ removeNils ids, i.isLocal self = true) →
      (traceOf (run self n (.importMany ids cache persist) st)).all (fun e => !e.isFetch) = true)
  ∧ (∀ (self : String) (n : Nat) (st : St) (ids : List BitId) (lf p : Bool),
      ids.isEmpty = false →
      (leftDefs (st.store.getMany ids) lf).isEmpty = false →
      isOk (run self (n+1) (.getExternalMany ids lf p) st) = true →
      (traceOf (run self (n+1) (.getExternalMany ids lf p) st)).head?
        = some (.fetch (groupByScopeName ((leftDefs (st.store.getMany ids) lf).map
            (fun d => d.id))) .component)) := by
  constructor
  · intro self n st ids cache persist hall hloc
    cases hrun : run self n (.importMany ids cache persist) st with
    | none => rfl
    | some v =>
      cases v with
      | error e => rfl
      | ok t =>
        obtain ⟨r, st2, tr⟩ := t
        have := ((run_all_local self n).1 st ids cache persist r st2 tr hall hloc hrun).2
        simpa [traceOf] using this
  · intro self n st ids lf p hids hleft hok
    rw [show run self (n+1) (.getExternalMany ids lf p) st
        = mbind (fetchRemote (groupByScopeName ((leftDefs (st.store.getMany ids) lf).map
            (fun d => d.id))) .component st)
          (fun objectList st1 =>
            mbind (writeManyComponentsToModel objectList p ids st1)
              (fun nonLaneIds st2 =>
                run self n (.getExternalMany nonLaneIds true true) st2)) from by
      simp only [run, hids, hleft, Bool.false_eq_true, if_false]] at hok ⊢
    cases hs : st.script with
    | nil =>
      exact @mbind_head _ _ _ _ emptyBatch st
        (Event.fetch (groupByScopeName ((leftDefs (st.store.getMany ids) lf).map
          (fun d => d.id))) FetchKind.component) (by simp [fetchRemote, hs]) hok
    | cons resp rest =>
      cases resp with
      | error e =>
        rw [show fetchRemote (groupByScopeName ((leftDefs (st.store.getMany ids) lf).map
            (fun d => d.id))) .component st = some (.error e) from by
          simp [fetchRemote, hs]] at hok
        simp [mbind, isOk] at hok
      | ok b =>
        exact @mbind_head _ _ _ _ b ⟨st.store, rest⟩
          (Event.fetch (groupByScopeName ((leftDefs (st.store.getMany ids) lf).map
            (fun d => d.id))) FetchKind.component) (by simp [fetchRemote, hs]) hok

theorem toComponentVersion_id {c : ModelComponent} {i : BitId}
    (hs : c.scope = i.scope) (hn : c.name = i.name) (hconc : i.isConcrete = true) :
    (c.toComponentVersion i.version).id = i := by
  unfold BitId.isConcrete at hconc
  cases i with
  | mk iscope iname iver =>
    cases hv : iver with
    | none => rw [hv] at hconc; simp at hconc
    | some v =>
      rw [hv] at hconc
      simp only [Bool.not_eq_true'] at hconc
      subst hv
      unfold ModelComponent.toComponentVersion
      simp only [hconc, Bool.false_eq_true, if_false]
      unfold ComponentVersion.id
      simp_all

theorem cvsOfDefsChecked_ids : ∀ {defs : List ComponentDef} {l : List ComponentVersion},
    cvsOfDefsChecked defs = .ok l →
    (∀ d ∈ defs, ∀ c, d.component = some c → c.scope = d.id.scope ∧ c.name = d.id.name) →
    (∀ d ∈ defs, d.id.isConcrete = true) →
    l.map ComponentVersion.id = defs.map (fun d => d.id) := by
  intro defs
  induction defs with
  | nil =>
    intro l h _ _
    simp only [cvsOfDefsChecked, Except.ok.injEq] at h
    rw [← h]
    rfl
  | cons d rest ih =>
    intro l h hf hc
    simp only [cvsOfDefsChecked] at h
    cases hcomp : d.component with
    | none => rw [hcomp] at h; cases h
    | some c =>
      rw [hcomp] at h
      cases hrec : cvsOfDefsChecked rest with
      | error e => rw [hrec] at h; cases h
      | ok l2 =>
        rw [hrec] at h
        injection h with h
        rw [← h]
        have hfld := hf d (List.mem_cons_self d rest) c hcomp
        have hid := toComponentVersion_id hfld.1 hfld.2 (hc d (List.mem_cons_self d rest))
        simp only [List.map_cons, hid]
        rw [ih hrec (fun x hx => hf x (List.mem_cons_of_mem d hx))
          (fun x hx => hc x (List.mem_cons_of_mem d hx))]

theorem cvsOfDefsCast_ids : ∀ {defs : List ComponentDef} {l : List ComponentVersion},
    cvsOfDefsCast defs = .ok l →
    (∀ d ∈ defs, ∀ c, d.component = some c → c.scope = d.id.scope ∧ c.name = d.id.name) →
    (∀ d ∈ defs, d.id.isConcrete = true) →
    l.map ComponentVersion.id = defs.map (fun d => d.id) := by
  intro defs
  induction defs with
  | nil =>
    intro l h _ _
    simp only [cvsOfDefsCast, Except.ok.injEq] at h
    rw [← h]
    rfl
  | cons d rest ih =>
    intro l h hf hc
    simp only [cvsOfDefsCast] at h
    cases hcomp : d.component with
    | none => rw [hcomp] at h; cases h
    | some c =>
      rw [hcomp] at h
      cases hrec : cvsOfDefsCast rest with
      | error e => rw [hrec] at h; cases h
      | ok l2 =>
        rw [hrec] at h
        injection h with h
        rw [← h]
        have hfld := hf d (List.mem_cons_self d rest) c hcomp
        have hid := toComponentVersion_id hfld.1 hfld.2 (hc d (List.mem_cons_self d rest))
        simp only [List.map_cons, hid]
        rw [ih hrec (fun x hx => hf x (List.mem_cons_of_mem d hx))
          (fun x hx => hc x (List.mem_cons_of_mem d hx))]

theorem getMany_fields (st : Store) (ids : List BitId) :
    ∀ d ∈ st.getMany ids, ∀ c, d.component = some c →
      c.scope = d.id.scope ∧ c.name = d.id.name := by
  intro d hd c hc
  unfold Store.getMany at hd
  obtain ⟨i, _, hdi⟩ := List.mem_map.mp hd
  rw [← hdi] at hc ⊢
  simp only at hc ⊢
  exact findComp_fields hc

theorem getMany_concrete {st : Store} {ids : List BitId}
    (h : allConcrete ids = true) :
    ∀ d ∈ st.getMany ids, d.id.isConcrete = true := by
  intro d hd
  unfold Store.getMany at hd
  obtain ⟨i, hi, hdi⟩ := List.mem_map.mp hd
  rw [← hdi]
  exact List.all_eq_true.mp h i hi

theorem getExternalManyWoDeps_ids (self : String) : ∀ (fuel : Nat) (st : St)
    (ids : List BitId) (lf : Bool) (r : List ComponentVersion) (st2 : St) (tr : List Event),
    allConcrete ids = true →
    run self fuel (.getExternalManyWithoutDependencies ids lf) st = some (.ok (r, st2, tr)) →
    r.map ComponentVersion.id = ids := by
  intro fuel
  induction fuel with
  | zero => intro st ids lf r st2 tr _ h; simp [run] at h
  | succ n ih =>
    intro st ids lf r st2 tr hconc h
    cases hids : ids.isEmpty with
    | true =>
      simp only [run, hids, if_true, mret, Option.some.injEq, Except.ok.injEq,
        Prod.mk.injEq] at h
      obtain ⟨hr, _, _⟩ := h
      rw [← hr, List.isEmpty_iff.mp hids]
      rfl
    | false =>
      simp only [run, hids, Bool.false_eq_true, if_false] at h
      cases hleft : (leftDefs (st.store.getMany ids) lf).isEmpty with
      | true =>
        rw [hleft] at h
        simp only [eq_self_iff_true, if_true] at h
        cases hcv : cvsOfDefsCast (st.store.getMany ids) with
        | error e => rw [hcv] at h; simp [mthrow] at h
        | ok l =>
          rw [hcv] at h
          simp only [mret, Option.some.injEq, Except.ok.injEq, Prod.mk.injEq] at h
          obtain ⟨hr, _, _⟩ := h
          rw [← hr, cvsOfDefsCast_ids hcv (getMany_fields st.store ids)
            (getMany_concrete hconc), getMany_map_id]
      | false =>
        rw [hleft] at h
        simp only [Bool.false_eq_true, if_false] at h
        obtain ⟨b, stf, tr1, tr2, hfetch, hrest, htr⟩ := mbind_ok.mp h
        obtain ⟨nonLane, stw, tr3, tr4, hwrite, hrun, htr2⟩ := mbind_ok.mp hrest
        simp only [writeManyComponentsToModel, Option.some.injEq, Except.ok.injEq,
          Prod.mk.injEq] at hwrite
        obtain ⟨hnl, _, _⟩ := hwrite
        rw [← hnl] at hrun
        exact ih stw ids true r st2 tr4 hconc hrun

theorem importManyWoDeps_ids (self : String) (fuel : Nat) (st : St)
    (ids : List (Option BitId)) (cache : Bool) (r : List ComponentVersion) (st2 : St)
    (tr : List Event)
    (hconc : allConcrete (removeNils ids) = true)
    (h : run self fuel (.importManyWithoutDependencies ids cache) st = some (.ok (r, st2, tr))) :
    r.map ComponentVersion.id
      = (removeNils ids).filter (fun i => i.isLocal self)
        ++ (removeNils ids).filter (fun i => !(i.isLocal self)) := by
  cases fuel with
  | zero => simp [run] at h
  | succ n =>
    cases hids0 : ids.isEmpty with
    | true =>
      simp only [run, hids0, if_true, mret, Option.some.injEq, Except.ok.injEq,
        Prod.mk.injEq] at h
      obtain ⟨hr, _, _⟩ := h
      rw [← hr, List.isEmpty_iff.mp hids0]
      rfl
    | false =>
      cases hidsN : (removeNils ids).isEmpty with
      | true =>
        simp only [run, hids0, hidsN, Bool.false_eq_true, if_false, if_true, mret,
          Option.some.injEq, Except.ok.injEq, Prod.mk.injEq] at h
        obtain ⟨hr, _, _⟩ := h
        rw [← hr, List.isEmpty_iff.mp hidsN]
        rfl
      | false =>
        simp only [run, hids0, hidsN, Bool.false_eq_true, if_false] at h
        cases hcv : cvsOfDefsChecked (st.store.getMany
            ((removeNils ids).filter (fun i => i.isLocal self))) with
        | error e => rw [hcv] at h; simp [mthrow] at h
        | ok arr =>
          rw [hcv] at h
          obtain ⟨ext, st1, tr1, tr2, hext, hret, htr⟩ := mbind_ok.mp h
          simp only [mret, Option.some.injEq, Except.ok.injEq, Prod.mk.injEq] at hret
          obtain ⟨hr, _, _⟩ := hret
          rw [← hr]
          have hloc : allConcrete ((removeNils ids).filter (fun i => i.isLocal self)) = true := by
            apply List.all_eq_true.mpr
            intro i hi
            exact List.all_eq_true.mp hconc i (List.mem_filter.mp hi).1
          have hexts : allConcrete ((removeNils ids).filter (fun i => !(i.isLocal self))) = true := by
        -- placeholder
            apply List.all_eq_true.mpr
            intro i hi
            exact List.all_eq_true.mp hconc i (List.mem_filter.mp hi).1
          have h1 := cvsOfDefsChecked_ids hcv
            (getMany_fields st.store ((removeNils ids).filter (fun i => i.isLocal self)))
            (getMany_concrete hloc)
          have h2 := getExternalManyWoDeps_ids self n st
            ((removeNils ids).filter (fun i => !(i.isLocal self))) cache ext st1 tr1 hexts hext
          rw [List.map_append, h1, getMany_map_id, h2]

/-- C4 (amended): closure correctness of `componentToVersionDependencies`.
For a stored version whose flattened runtime list is resolved successfully
with concrete version tags, the returned runtime-dependency array contains
resolved entries for exactly the stored ids (a permutation), but ordered
with all locally-owned entries first followed by externally-owned entries,
each group preserving its relative order; likewise for the dev and
extension lists.  Order is preserved outright only when the list does not
mix local and external owners, refuting the mixed-list part of the claim
(see the counterexample). -/
theorem claimC4_closure_order_amended : ∀ (self : String) (n : Nat) (st : St) (c : ModelComponent)
    (id : BitId) (v : VersionObj) (r : VersionDependencies) (st2 : St) (tr : List Event),
    (c.toComponentVersion id.version).getVersion st.store = some v →
    allConcrete v.flattenedDependencies = true →
    allConcrete v.flattenedDevDependencies = true →
    allConcrete v.extensionsBitIds = true →
    run self (n+1) (.componentToVersionDependencies c id) st = some (.ok (r, st2, tr)) →
    (r.dependencies.map ComponentVersion.id
        = v.flattenedDependencies.filter (fun i => i.isLocal self)
          ++ v.flattenedDependencies.filter (fun i => !(i.isLocal self))
      ∧ List.Perm (r.dependencies.map ComponentVersion.id) v.flattenedDependencies)
    ∧ (r.devDependencies.map ComponentVersion.id
        = v.flattenedDevDependencies.filter (fun i => i.isLocal self)
          ++ v.flattenedDevDependencies.filter (fun i => !(i.isLocal self))
      ∧ List.Perm (r.devDependencies.map ComponentVersion.id) v.flattenedDevDependencies)
    ∧ (r.extensionsDependencies.map ComponentVersion.id
        = v.extensionsBitIds.filter (fun i => i.isLocal self)
          ++ v.extensionsBitIds.filter (fun i => !(i.isLocal self))
      ∧ List.Perm (r.extensionsDependencies.map ComponentVersion.id) v.extensionsBitIds) := by
  intro self n st c id v r st2 tr hv hc1 hc2 hc3 h
  simp only [run, hv] at h
  obtain ⟨d1, st1, tr1, tr2, hd1, hrest, htr⟩ := mbind_ok.mp h
  obtain ⟨d2, st2x, tr3, tr4, hd2, hrest2, htr2⟩ := mbind_ok.mp hrest
  obtain ⟨d3, st3x, tr5, tr6, hd3, hret, htr3⟩ := mbind_ok.mp hrest2
  simp only [mret, Option.some.injEq, Except.ok.injEq, Prod.mk.injEq] at hret
  obtain ⟨hr, _, _⟩ := hret
  have e1 := importManyWoDeps_ids self n st (v.flattenedDependencies.map some) true
    d1 st1 tr1 (by rw [removeNils_map_some]; exact hc1) hd1
  have e2 := importManyWoDeps_ids self n st1 (v.flattenedDevDependencies.map some) true
    d2 st2x tr3 (by rw [removeNils_map_some]; exact hc2) hd2
  have e3 := importManyWoDeps_ids self n st2x (v.extensionsBitIds.map some) true
    d3 st3x tr5 (by rw [removeNils_map_some]; exact hc3) hd3
  rw [removeNils_map_some] at e1 e2 e3
  rw [← hr]
  refine ⟨⟨e1, ?_⟩, ⟨e2, ?_⟩, ⟨e3, ?_⟩⟩
  · rw [e1]; exact List.filter_append_perm _ _
  · rw [e2]; exact List.filter_append_perm _ _
  · rw [e3]; exact List.filter_append_perm _ _

theorem writesOf_append (tr1 tr2 : List Event) :
    writesOf (tr1 ++ tr2) = writesOf tr1 ++ writesOf tr2 := by
  simp [writesOf, List.filterMap_append]

theorem fetchRemote_ok_trace {g : List (String × List String)} {k : FetchKind} {st : St}
    {b : Batch} {st1 : St} {tr : List Event}
    (h : fetchRemote g k st = some (.ok (b, st1, tr))) : tr = [.fetch g k] := by
  unfold fetchRemote at h
  cases hs : st.script with
  | nil =>
    rw [hs] at h
    simp only [Option.some.injEq, Except.ok.injEq, Prod.mk.injEq] at h
    exact h.2.2.symm
  | cons resp rest =>
    cases resp with
    | error e => rw [hs] at h; simp at h
    | ok bb =>
      rw [hs] at h
      simp only [Option.some.injEq, Except.ok.injEq, Prod.mk.injEq] at h
      exact h.2.2.symm

theorem run_writes_true (self : String) : ∀ fuel : Nat,
    (∀ st c id r st2 tr,
      run self fuel (.componentToVersionDependencies c id) st = some (.ok (r, st2, tr)) →
      (writesOf tr).all (fun b => b) = true)
  ∧ (∀ st id lf r st2 tr,
      run self fuel (.getExternal id lf) st = some (.ok (r, st2, tr)) →
      (writesOf tr).all (fun b => b) = true)
  ∧ (∀ st ids cache r st2 tr,
      run self fuel (.importManyWithoutDependencies ids cache) st = some (.ok (r, st2, tr)) →
      (writesOf tr).all (fun b => b) = true)
  ∧ (∀ st ids lf r st2 tr,
      run self fuel (.getExternalManyWithoutDependencies ids lf) st = some (.ok (r, st2, tr)) →
      (writesOf tr).all (fun b => b) = true)
  ∧ (∀ st defs r st2 tr,
      run self fuel (.vdsOfDefsChecked defs) st = some (.ok (r, st2, tr)) →
      (writesOf tr).all (fun b => b) = true)
  ∧ (∀ st defs r st2 tr,
      run self fuel (.vdsOfDefsCast defs) st = some (.ok (r, st2, tr)) →
      (writesOf tr).all (fun b => b) = true)
  ∧ (∀ st ids lf r st2 tr,
      run self fuel (.getExternalMany ids lf true) st = some (.ok (r, st2, tr)) →
      (writesOf tr).all (fun b => b) = true) := by
  intro fuel
  induction fuel with
  | zero =>
    refine ⟨?_, ?_, ?_, ?_, ?_, ?_, ?_⟩
    · intro st c id r st2 tr h; simp [run] at h
    · intro st id lf r st2 tr h; simp [run] at h
    · intro st ids cache r st2 tr h; simp [run] at h
    · intro st ids lf r st2 tr h; simp [run] at h
    · intro st defs r st2 tr h; simp [run] at h
    · intro st defs r st2 tr h; simp [run] at h
    · intro st ids lf r st2 tr h; simp [run] at h
  | succ n ih =>
    obtain ⟨ihCVD, ihGE, ihWO, ihGEWO, ihChk, ihCast, ihGEM⟩ := ih
    refine ⟨?_, ?_, ?_, ?_, ?_, ?_, ?_⟩
    · -- componentToVersionDependencies
      intro st c id r st2 tr h
      simp only [run] at h
      cases hv : (c.toComponentVersion id.version).getVersion st.store with
      | none =>
        rw [hv] at h
        cases hsc : (c.scope == self) with
        | true => rw [hsc] at h; simp [mthrow] at h
        | false =>
          rw [hsc] at h
          simp only [Bool.false_eq_true, if_false] at h
          exact ihGE st id false r st2 tr h
      | some version =>
        rw [hv] at h
        obtain ⟨d1, st1, tr1, tr2, hd1, hrest, htr⟩ := mbind_ok.mp h
        obtain ⟨d2, st2x, tr3, tr4, hd2, hrest2, htr2⟩ := mbind_ok.mp hrest
        obtain ⟨d3, st3x, tr5, tr6, hd3, hret, htr3⟩ := mbind_ok.mp hrest2
        simp only [mret, Option.some.injEq, Except.ok.injEq, Prod.mk.injEq] at hret
        obtain ⟨_, _, htr6⟩ := hret
        rw [htr, htr2, htr3, ← htr6]
        simp only [List.append_nil, writesOf_append, List.all_append, Bool.and_eq_true]
        exact ⟨ihWO st _ true d1 st1 tr1 hd1,
          ihWO st1 _ true d2 st2x tr3 hd2, ihWO st2x _ true d3 st3x tr5 hd3⟩
    · -- getExternal
      intro st id lf r st2 tr h
      simp only [run] at h
      cases hfc : st.store.findComp id with
      | some c =>
        rw [hfc] at h
        cases lf with
        | true =>
          simp only [if_true] at h
          exact ihCVD st c id r st2 tr h
        | false =>
          simp only [Bool.false_eq_true, if_false] at h
          obtain ⟨b, stf, tr1, tr2, hfetch, hrest, htr⟩ := mbind_ok.mp h
          obtain ⟨u, stw, tr3, tr4, hwrite, hrun, htr2⟩ := mbind_ok.mp hrest
          simp only [writeManyComponentsToModel, Option.some.injEq, Except.ok.injEq,
            Prod.mk.injEq] at hwrite
          obtain ⟨_, _, htr3⟩ := hwrite
          rw [htr, htr2, ← htr3, fetchRemote_ok_trace hfetch]
          simp only [writesOf_append, List.all_append, Bool.and_eq_true]
          refine ⟨by rfl, by rfl, ihGE stw id true r st2 tr4 hrun⟩
      | none =>
        rw [hfc] at h
        obtain ⟨b, stf, tr1, tr2, hfetch, hrest, htr⟩ := mbind_ok.mp h
        obtain ⟨u, stw, tr3, tr4, hwrite, hrun, htr2⟩ := mbind_ok.mp hrest
        simp only [writeManyComponentsToModel, Option.some.injEq, Except.ok.injEq,
          Prod.mk.injEq] at hwrite
        obtain ⟨_, _, htr3⟩ := hwrite
        rw [htr, htr2, ← htr3, fetchRemote_ok_trace hfetch]
        simp only [writesOf_append, List.all_append, Bool.and_eq_true]
        refine ⟨by rfl, by rfl, ihGE stw id true r st2 tr4 hrun⟩
    · -- importManyWithoutDependencies
      intro st ids cache r st2 tr h
      cases hids0 : ids.isEmpty with
      | true =>
        simp only [run, hids0, if_true, mret, Option.some.injEq, Except.ok.injEq,
          Prod.mk.injEq] at h
        obtain ⟨_, _, h3⟩ := h
        rw [← h3]
        rfl
      | false =>
        cases hidsN : (removeNils ids).isEmpty with
        | true =>
          simp only [run, hids0, hidsN, Bool.false_eq_true, if_false, if_true, mret,
            Option.some.injEq, Except.ok.injEq, Prod.mk.injEq] at h
          obtain ⟨_, _, h3⟩ := h
          rw [← h3]
          rfl
        | false =>
          simp only [run, hids0, hidsN, Bool.false_eq_true, if_false] at h
          cases hcv : cvsOfDefsChecked (st.store.getMany
              ((removeNils ids).filter (fun i => i.isLocal self))) with
          | error e => rw [hcv] at h; simp [mthrow] at h
          | ok arr =>
            rw [hcv] at h
            obtain ⟨ext, st1, tr1, tr2, hext, hret, htr⟩ := mbind_ok.mp h
            simp only [mret, Option.some.injEq, Except.ok.injEq, Prod.mk.injEq] at hret
            obtain ⟨_, _, htr2⟩ := hret
            rw [htr, ← htr2]
            simp only [List.append_nil]
            exact ihGEWO st _ cache ext st1 tr1 hext
    · -- getExternalManyWithoutDependencies
      intro st ids lf r st2 tr h
      cases hids : ids.isEmpty with
      | true =>
        simp only [run, hids, if_true, mret, Option.some.injEq, Except.ok.injEq,
          Prod.mk.injEq] at h
        obtain ⟨_, _, h3⟩ := h
        rw [← h3]
        rfl
      | false =>
        simp only [run, hids, Bool.false_eq_true, if_false] at h
        cases hleft : (leftDefs (st.store.getMany ids) lf).isEmpty with
        | true =>
          rw [hleft] at h
          simp only [eq_self_iff_true, if_true] at h
          cases hcv : cvsOfDefsCast (st.store.getMany ids) with
          | error e => rw [hcv] at h; simp [mthrow] at h
          | ok l =>
            rw [hcv] at h
            simp only [mret, Option.some.injEq, Except.ok.injEq, Prod.mk.injEq] at h
            obtain ⟨_, _, h3⟩ := h
            rw [← h3]
            rfl
        | false =>
          rw [hleft] at h
          simp only [Bool.false_eq_true, if_false] at h
          obtain ⟨b, stf, tr1, tr2, hfetch, hrest, htr⟩ := mbind_ok.mp h
          obtain ⟨nonLane, stw, tr3, tr4, hwrite, hrun, htr2⟩ := mbind_ok.mp hrest
          simp only [writeManyComponentsToModel, Option.some.injEq, Except.ok.injEq,
            Prod.mk.injEq] at hwrite
          obtain ⟨hnl, _, htr3⟩ := hwrite
          rw [← hnl] at hrun
          rw [htr, htr2, ← htr3, fetchRemote_ok_trace hfetch]
          simp only [writesOf_append, List.all_append, Bool.and_eq_true]
          refine ⟨by rfl, by rfl, ihGEWO stw ids true r st2 tr4 hrun⟩
    · -- vdsOfDefsChecked
      intro st defs r st2 tr h
      cases defs with
      | nil =>
        simp only [run, mret, Option.some.injEq, Except.ok.injEq, Prod.mk.injEq] at h
        obtain ⟨_, _, h3⟩ := h
        rw [← h3]
        rfl
      | cons d rest =>
        simp only [run] at h
        cases hc : d.component with
        | none => rw [hc] at h; simp [mthrow] at h
        | some c =>
          rw [hc] at h
          obtain ⟨vd, st1, tr1, tr2, hvd, hrest, htr⟩ := mbind_ok.mp h
          obtain ⟨vds, stx, tr3, tr4, hvds, hret, htr2⟩ := mbind_ok.mp hrest
          simp only [mret, Option.some.injEq, Except.ok.injEq, Prod.mk.injEq] at hret
          obtain ⟨_, _, htr4⟩ := hret
          rw [htr, htr2, ← htr4]
          simp only [List.append_nil, writesOf_append, List.all_append, Bool.and_eq_true]
          exact ⟨ihCVD st c d.id vd st1 tr1 hvd, ihChk st1 rest vds stx tr3 hvds⟩
    · -- vdsOfDefsCast
      intro st defs r st2 tr h
      cases defs with
      | nil =>
        simp only [run, mret, Option.some.injEq, Except.ok.injEq, Prod.mk.injEq] at h
        obtain ⟨_, _, h3⟩ := h
        rw [← h3]
        rfl
      | cons d rest =>
        simp only [run] at h
        cases hc : d.component with
        | none => rw [hc] at h; simp [mthrow] at h
        | some c =>
          rw [hc] at h
          obtain ⟨vd, st1, tr1, tr2, hvd, hrest, htr⟩ := mbind_ok.mp h
          obtain ⟨vds, stx, tr3, tr4, hvds, hret, htr2⟩ := mbind_ok.mp hrest
          simp only [mret, Option.some.injEq, Except.ok.injEq, Prod.mk.injEq] at hret
          obtain ⟨_, _, htr4⟩ := hret
          rw [htr, htr2, ← htr4]
          simp only [List.append_nil, writesOf_append, List.all_append, Bool.and_eq_true]
          exact ⟨ihCVD st c d.id vd st1 tr1 hvd, ihCast st1 rest vds stx tr3 hvds⟩
    · -- getExternalMany with persist = true
      intro st ids lf r st2 tr h
      cases hids : ids.isEmpty with
      | true =>
        simp only [run, hids, if_true, mret, Option.some.injEq, Except.ok.injEq,
          Prod.mk.injEq] at h
        obtain ⟨_, _, h3⟩ := h
        rw [← h3]
        rfl
      | false =>
        simp only [run, hids, Bool.false_eq_true, if_false] at h
        cases hleft : (leftDefs (st.store.getMany ids) lf).isEmpty with
        | true =>
          rw [hleft] at h
          simp only [eq_self_iff_true, if_true] at h
          exact ihCast st _ r st2 tr h
        | false =>
          rw [hleft] at h
          simp only [Bool.false_eq_true, if_false] at h
          obtain ⟨b, stf, tr1, tr2, hfetch, hrest, htr⟩ := mbind_ok.mp h
          obtain ⟨nonLane, stw, tr3, tr4, hwrite, hrun, htr2⟩ := mbind_ok.mp hrest
          simp only [writeManyComponentsToModel, Option.some.injEq, Except.ok.injEq,
            Prod.mk.injEq] at hwrite
          obtain ⟨hnl, _, htr3⟩ := hwrite
          rw [← hnl] at hrun
          rw [htr, htr2, ← htr3, fetchRemote_ok_trace hfetch]
          simp only [writesOf_append, List.all_append, Bool.and_eq_true]
          refine ⟨by rfl, by rfl, ihGEM stw ids true r st2 tr4 hrun⟩

/-- C5 (amended): in `_getExternalMany`, only the first round-trip's
write-back carries the caller's persist flag; the recursive call at line
274 passes no flags, so every subsequent round-trip writes with
persistence enabled (the default true).  The original claim — that no
round-trip of a `persist = false` call writes with persistence enabled —
is refuted by the counterexample. -/
theorem claimC5_persist_flag_amended : ∀ (self : String) (n : Nat) (st : St) (ids : List BitId)
    (lf p : Bool) (r : List VersionDependencies) (st2 : St) (tr : List Event),
    (leftDefs (st.store.getMany ids) lf).isEmpty = false →
    run self (n+1) (.getExternalMany ids lf p) st = some (.ok (r, st2, tr)) →
    ∃ tr2, tr = .fetch (groupByScopeName ((leftDefs (st.store.getMany ids) lf).map
          (fun d => d.id))) .component
        :: .write p ids :: tr2
      ∧ (writesOf tr2).all (fun b => b) = true := by
  intro self n st ids lf p r st2 tr hleft h
  have hids : ids.isEmpty = false := by
    cases hi : ids with
    | nil => rw [hi] at hleft; simp [Store.getMany, leftDefs] at hleft
    | cons a l => rfl
  simp only [run, hids, hleft, Bool.false_eq_true, if_false] at h
  obtain ⟨b, stf, tr1, tr2, hfetch, hrest, htr⟩ := mbind_ok.mp h
  obtain ⟨nonLane, stw, tr3, tr4, hwrite, hrun, htr2⟩ := mbind_ok.mp hrest
  simp only [writeManyComponentsToModel, Option.some.injEq, Except.ok.injEq,
    Prod.mk.injEq] at hwrite
  obtain ⟨hnl, _, htr3⟩ := hwrite
  rw [← hnl] at hrun
  refine ⟨tr4, ?_, (run_writes_true self n).2.2.2.2.2.2 stw ids true r st2 tr4 hrun⟩
  rw [htr, htr2, ← htr3, fetchRemote_ok_trace hfetch]
  rfl

/-- C6: when the Version Content for an id's exact version is absent
although the Component Record exists, `componentToVersionDependencies`
fails with the fatal `ShowDoctorError` consistency error if the record's
scope is the importer's own (no retry), and otherwise delegates to
`_getExternal` with `localFetch = false`, whose first observable action on
any completed run is a remote fetch for exactly that single id. -/
theorem claimC6_missing_version_content : ∀ (self : String) (n : Nat) (st : St) (c : ModelComponent) (id : BitId),
    (c.toComponentVersion id.version).getVersion st.store = none →
    ((c.scope = self →
      run self (n+1) (.componentToVersionDependencies c id) st
        = some (.error (.showDoctor ("Version " ++ (c.toComponentVersion id.version).version
            ++ " of " ++ c.compIdStr ++ " was not found in scope " ++ self))))
    ∧ (¬(c.scope = self) →
        run self (n+1) (.componentToVersionDependencies c id) st
          = run self n (.getExternal id false) st
        ∧ (isOk (run self n (.getExternal id false) st) = true →
            (traceOf (run self n (.getExternal id false) st)).head?
              = some (.fetch (groupByScopeName [id]) .component)))) := by
  intro self n st c id hv
  constructor
  · intro hsc
    simp only [run, hv, hsc, beq_self_eq_true, if_true, mthrow]
  · intro hsc
    have hscb : (c.scope == self) = false := by
      simp [hsc]
    constructor
    · simp only [run, hv, hscb, Bool.false_eq_true, if_false]
    · intro hok
      cases n with
      | zero => simp [run, isOk] at hok
      | succ m =>
        rw [show run self (m+1) (.getExternal id false) st
            = (match st.store.findComp id with
              | some c2 =>
                mbind (fetchRemote (groupByScopeName [id]) .component st)
                  (fun objectList st1 =>
                    mbind (writeManyComponentsToModel objectList true [id] st1)
                      (fun _ st2 => run self m (.getExternal id true) st2))
              | none =>
                mbind (fetchRemote (groupByScopeName [id]) .component st)
                  (fun objectList st1 =>
                    mbind (writeManyComponentsToModel objectList true [id] st1)
                      (fun _ st2 => run self m (.getExternal id true) st2))) from by
          simp only [run]
          cases st.store.findComp id <;> simp] at hok ⊢
        cases hfc : st.store.findComp id with
        | some c2 =>
          rw [hfc] at hok
          cases hs : st.script with
          | nil =>
            exact @mbind_head _ _ _ _ emptyBatch st
              (Event.fetch (groupByScopeName [id]) FetchKind.component)
              (by simp [fetchRemote, hs]) hok
          | cons resp rest =>
            cases resp with
            | error e =>
              rw [show fetchRemote (groupByScopeName [id]) .component st
                  = some (.error e) from by simp [fetchRemote, hs]] at hok
              simp [mbind, isOk] at hok
            | ok b =>
              exact @mbind_head _ _ _ _ b ⟨st.store, rest⟩
                (Event.fetch (groupByScopeName [id]) FetchKind.component)
                (by simp [fetchRemote, hs]) hok
        | none =>
          rw [hfc] at hok
          cases hs : st.script with
          | nil =>
            exact @mbind_head _ _ _ _ emptyBatch st
              (Event.fetch (groupByScopeName [id]) FetchKind.component)
              (by simp [fetchRemote, hs]) hok
          | cons resp rest =>
            cases resp with
            | error e =>
              rw [show fetchRemote (groupByScopeName [id]) .component st
                  = some (.error e) from by simp [fetchRemote, hs]] at hok
              simp [mbind, isOk] at hok
            | ok b =>
              exact @mbind_head _ _ _ _ b ⟨st.store, rest⟩
                (Event.fetch (groupByScopeName [id]) FetchKind.component)
                (by simp [fetchRemote, hs]) hok

/-- C7: `importDependencies` forwards the underlying `importMany` failure
wrapped as `DependencyNotFound e.id`, except `RemoteScopeNotFound` and
`PermissionDenied`, which pass through unwrapped (and are not retried —
the call is a single propagation). -/
theorem claimC7_dependency_error_wrapping : ∀ (self : String) (fuel : Nat) (st : St) (ids : List (Option BitId))
    (e : Err),
    run self fuel (.importMany ids true true) st = some (.error e) →
    ((e.isPassthrough = true → importDependencies self fuel st ids = some (.error e))
    ∧ (e.isPassthrough = false →
        importDependencies self fuel st ids = some (.error (.dependencyNotFound e.idOf)))) := by
  intro self fuel st ids e h
  constructor
  · intro hp
    cases e with
    | remoteScopeNotFound s => simp [importDependencies, h]
    | permissionDenied s => simp [importDependencies, h]
    | componentNotFound i => simp [Err.isPassthrough] at hp
    | dependencyNotFound i => simp [Err.isPassthrough] at hp
    | showDoctor m => simp [Err.isPassthrough] at hp
    | generalError m => simp [Err.isPassthrough] at hp
    | typeError => simp [Err.isPassthrough] at hp
  · intro hp
    cases e with
    | remoteScopeNotFound s => simp [Err.isPassthrough] at hp
    | permissionDenied s => simp [Err.isPassthrough] at hp
    | componentNotFound i => simp [importDependencies, h, Err.idOf]
    | dependencyNotFound i => simp [importDependencies, h, Err.idOf]
    | showDoctor m => simp [importDependencies, h, Err.idOf]
    | generalError m => simp [importDependencies, h, Err.idOf]
    | typeError => simp [importDependencies, h, Err.idOf]

theorem mem_expandedIdsOfOne {vd : VersionDependencies} {i : BitId} :
    i ∈ expandedIdsOfOne vd ↔
      ((∃ v, v ∈ vd.component.component.versions ∧ ¬(v = vd.component.version)
        ∧ i = vd.component.id.changeVersion v)
      ∨ (∃ hp, vd.component.component.getHead = some hp
        ∧ i = vd.component.id.changeVersion hp)) := by
  unfold expandedIdsOfOne removeNils
  cases hh : vd.component.component.getHead with
  | none =>
    simp only [List.mem_filterMap, List.mem_map, id_eq]
    constructor
    · rintro ⟨o, ⟨v, hv, ho⟩, hoi⟩
      left
      by_cases hveq : v = vd.component.version
      · rw [hveq] at ho; simp at ho; rw [← ho] at hoi; cases hoi
      · refine ⟨v, hv, hveq, ?_⟩
        simp only [show (v == vd.component.version) = false from by
          simp [beq_iff_eq]; exact hveq, Bool.false_eq_true, if_false] at ho
        rw [← ho] at hoi
        injection hoi with hoi
        exact hoi.symm
    · rintro (⟨v, hv, hne, hi⟩ | ⟨hp, hhp, _⟩)
      · refine ⟨some (vd.component.id.changeVersion v), ⟨v, hv, ?_⟩, by rw [hi]⟩
        simp only [show (v == vd.component.version) = false from by
          simp [beq_iff_eq]; exact hne, Bool.false_eq_true, if_false]
      · cases hhp
  | some hd0 =>
    simp only [List.mem_append, List.mem_filterMap, List.mem_map, id_eq,
      List.mem_singleton]
    constructor
    · rintro (⟨o, ⟨v, hv, ho⟩, hoi⟩ | hi)
      · left
        by_cases hveq : v = vd.component.version
        · rw [hveq] at ho; simp at ho; rw [← ho] at hoi; cases hoi
        · refine ⟨v, hv, hveq, ?_⟩
          simp only [show (v == vd.component.version) = false from by
            simp [beq_iff_eq]; exact hveq, Bool.false_eq_true, if_false] at ho
          rw [← ho] at hoi
          injection hoi with hoi
          exact hoi.symm
      · right
        exact ⟨hd0, rfl, hi⟩
    · rintro (⟨v, hv, hne, hi⟩ | ⟨hp, hhp, hi⟩)
      · left
        refine ⟨some (vd.component.id.changeVersion v), ⟨v, hv, ?_⟩, by rw [hi]⟩
        simp only [show (v == vd.component.version) = false from by
          simp [beq_iff_eq]; exact hne, Bool.false_eq_true, if_false]
      · right
        injection hhp with hhp
        rw [hi, hhp]

/-- C8 (amended): membership in the expanded identifier set of
`importManyWithAllVersions`.  An id is in the set iff it arises from some
closure as a known version tag other than the already-resolved version, or
as the head pointer — the head is pushed unconditionally, even when it
equals the already-resolved version (refuting the exclusion part of the
claim, see the counterexample).  In deep mode the recursion argument is
exactly the flattened dependency ids whose `(scope, name)` — version
ignored — is not present in the originally requested set. -/
theorem claimC8_expanded_ids_amended :
    (∀ (vds : List VersionDependencies) (i : BitId),
      i ∈ expandedIds vds ↔ ∃ vd, vd ∈ vds ∧
        ((∃ v, v ∈ vd.component.component.versions ∧ ¬(v = vd.component.version)
          ∧ i = vd.component.id.changeVersion v)
        ∨ (∃ hp, vd.component.component.getHead = some hp
          ∧ i = vd.component.id.changeVersion hp)))
  ∧ (∀ (arr : List VersionDependencies) (origIds : List (Option BitId)) (i : BitId),
      i ∈ depsOnlyFor arr origIds ↔
        ((∃ vd, vd ∈ arr ∧ ∃ cv, cv ∈ vd.allDependencies ∧ i = cv.id)
        ∧ hasWithoutVersion origIds i = false)) := by
  constructor
  · intro vds i
    unfold expandedIds
    rw [List.mem_flatMap]
    constructor
    · rintro ⟨vd, hvd, hi⟩
      exact ⟨vd, hvd, mem_expandedIdsOfOne.mp hi⟩
    · rintro ⟨vd, hvd, hi⟩
      exact ⟨vd, hvd, mem_expandedIdsOfOne.mpr hi⟩
  · intro arr origIds i
    unfold depsOnlyFor
    rw [List.mem_filter, List.mem_flatMap]
    constructor
    · rintro ⟨⟨vd, hvd, hi⟩, hw⟩
      obtain ⟨cv, hcv, hcvi⟩ := List.mem_map.mp hi
      refine ⟨⟨vd, hvd, cv, hcv, hcvi.symm⟩, ?_⟩
      simpa using hw
    · rintro ⟨⟨vd, hvd, cv, hcv, hcvi⟩, hw⟩
      refine ⟨⟨vd, hvd, List.mem_map.mpr ⟨cv, hcv, hcvi.symm⟩⟩, ?_⟩
      simp [hw]

theorem uniqFirst_nodup {α : Type} [BEq α] [LawfulBEq α] : ∀ l : List α, (uniqFirst l).Nodup := by
  intro l
  induction l with
  | nil => exact List.nodup_nil
  | cons a rest ih =>
    simp only [uniqFirst]
    refine List.nodup_cons.mpr ⟨?_, List.Nodup.filter _ ih⟩
    intro hmem
    have hpred := (List.mem_filter.mp hmem).2
    simp at hpred

theorem fetchRemote_ok_store {g : List (String × List String)} {k : FetchKind} {st : St}
    {b : Batch} {st1 : St} {tr : List Event}
    (h : fetchRemote g k st = some (.ok (b, st1, tr))) : st1.store = st.store := by
  unfold fetchRemote at h
  cases hs : st.script with
  | nil =>
    rw [hs] at h
    simp only [Option.some.injEq, Except.ok.injEq, Prod.mk.injEq] at h
    rw [← h.2.1]
  | cons resp rest =>
    cases resp with
    | error e => rw [hs] at h; simp at h
    | ok bb =>
      rw [hs] at h
      simp only [Option.some.injEq, Except.ok.injEq, Prod.mk.injEq] at h
      rw [← h.2.1]

/-- C9: `importManyObjects` de-duplicates the requested hashes per owning
scope and retains only those missing locally; when nothing is missing it
returns immediately with no remote fetch and no persist; otherwise its
trace is exactly one remote fetch of the missing groups with request type
`object`, one bulk insert of the fetched objects, and a single final
persist call covering all scopes. -/
theorem claimC9_import_objects : ∀ (st : St) (grouped : List (String × List String)),
    (missingGroups st.store grouped = [] → importManyObjects st grouped = mret () st)
  ∧ (∀ u st2 tr, importManyObjects st grouped = some (.ok (u, st2, tr)) →
      missingGroups st.store grouped ≠ [] →
      ∃ objs, tr = [.fetch (missingGroups st.store grouped) .obj, .addMany objs, .persistCall]
        ∧ st2.store.raws = st.store.raws ++ objs)
  ∧ (∀ s hs, (s, hs) ∈ missingGroups st.store grouped →
      hs.Nodup ∧ ∀ h ∈ hs, st.store.raws.contains h = false) := by
  intro st grouped
  refine ⟨?_, ?_, ?_⟩
  · intro h
    simp [importManyObjects, h]
  · intro u st2 tr h hne
    have hE : (missingGroups st.store grouped).isEmpty = false := by
      cases hm : missingGroups st.store grouped with
      | nil => exact absurd hm hne
      | cons a l => rfl
    simp only [importManyObjects, hE, Bool.false_eq_true, if_false] at h
    obtain ⟨b, st1, tr1, tr2, hfetch, hrest, htr⟩ := mbind_ok.mp h
    simp only [Option.some.injEq, Except.ok.injEq, Prod.mk.injEq] at hrest
    obtain ⟨_, hst2, htr2⟩ := hrest
    refine ⟨b.objs, ?_, ?_⟩
    · rw [htr, ← htr2, fetchRemote_ok_trace hfetch]
      rfl
    · rw [← hst2]
      simp only
      rw [fetchRemote_ok_store hfetch]
  · intro s hs hmem
    unfold missingGroups at hmem
    obtain ⟨hmem2, hne⟩ := List.mem_filter.mp hmem
    obtain ⟨p, hp, heq⟩ := List.mem_map.mp hmem2
    simp only [Prod.mk.injEq] at heq
    obtain ⟨_, hhs⟩ := heq
    constructor
    · rw [← hhs]
      exact List.Nodup.filter _ (uniqFirst_nodup p.2)
    · intro h hh
      rw [← hhs] at hh
      have := (List.mem_filter.mp hh).2
      simpa using this

theorem leftDefs_false (defs : List ComponentDef) : leftDefs defs false = defs := by
  unfold leftDefs
  simp

theorem getMany_isEmpty (st : Store) (ids : List BitId) :
    (st.getMany ids).isEmpty = ids.isEmpty := by
  cases ids <;> rfl

theorem getExternalMany_forced_fetch (self : String) : ∀ (fuel : Nat) (st : St)
    (ids : List BitId) (p : Bool) (r : List VersionDependencies) (st2 : St) (tr : List Event),
    ids.isEmpty = false →
    run self fuel (.getExternalMany ids false p) st = some (.ok (r, st2, tr)) →
    ∃ rest, tr = .fetch (groupByScopeName ids) .component :: rest := by
  intro fuel st ids p r st2 tr hids h
  cases fuel with
  | zero => simp [run] at h
  | succ n =>
    have hleft : (leftDefs (st.store.getMany ids) false).isEmpty = false := by
      rw [leftDefs_false, getMany_isEmpty]
      exact hids
    simp only [run, hids, hleft, Bool.false_eq_true, if_false] at h
    obtain ⟨b, stf, tr1, tr2, hfetch, hrest, htr⟩ := mbind_ok.mp h
    refine ⟨tr2, ?_⟩
    rw [htr, fetchRemote_ok_trace hfetch, leftDefs_false, getMany_map_id]
    rfl

theorem importMany_cache_false_fetch (self : String) : ∀ (fuel : Nat) (st : St)
    (ids : List BitId) (p : Bool) (r : List VersionDependencies) (st2 : St) (tr : List Event),
    (ids.filter (fun i => !(i.isLocal self))).isEmpty = false →
    run self fuel (.importMany (ids.map some) false p) st = some (.ok (r, st2, tr)) →
    Event.fetch (groupByScopeName (ids.filter (fun i => !(i.isLocal self)))) .component ∈ tr := by
  intro fuel st ids p r st2 tr hext h
  cases fuel with
  | zero => simp [run] at h
  | succ n =>
    have hids : (removeNils (ids.map some)).isEmpty = false := by
      rw [removeNils_map_some]
      cases hi : ids with
      | nil => rw [hi] at hext; simp at hext
      | cons a l => rfl
    simp only [run, hids, Bool.false_eq_true, if_false] at h
    obtain ⟨vds, st1, tr1, tr2, hvds, hrest, htr⟩ := mbind_ok.mp h
    obtain ⟨ext, stx, tr3, tr4, hextr, hret, htr2⟩ := mbind_ok.mp hrest
    rw [removeNils_map_some, List.partition_eq_filter_filter] at hextr
    simp only at hextr
    have hne : (ids.filter (fun i => !(i.isLocal self))).isEmpty = false := hext
    obtain ⟨rest, htr3⟩ := getExternalMany_forced_fetch self n st1
      (ids.filter (fun i => !(i.isLocal self))) p ext stx tr3 hne hextr
    rw [htr, htr2, htr3]
    simp

theorem imav_cache_false_fetch (self : String) : ∀ (fuel : Nat) (st : St)
    (ids : List BitId) (dv : Bool) (r : List VersionDependencies) (st2 : St) (tr : List Event),
    (ids.filter (fun i => !(i.isLocal self))).isEmpty = false →
    run self fuel (.importManyWithAllVersions (ids.map some) false dv) st = some (.ok (r, st2, tr)) →
    Event.fetch (groupByScopeName (ids.filter (fun i => !(i.isLocal self)))) .component ∈ tr := by
  intro fuel st ids dv r st2 tr hext h
  cases fuel with
  | zero => simp [run] at h
  | succ n =>
    have hids : (removeNils (ids.map some)).isEmpty = false := by
      rw [removeNils_map_some]
      cases hi : ids with
      | nil => rw [hi] at hext; simp at hext
      | cons a l => rfl
    simp only [run, hids, Bool.false_eq_true, if_false] at h
    obtain ⟨vds, st1, tr1, tr2, hvds, hrest, htr⟩ := mbind_ok.mp h
    rw [removeNils_map_some] at hvds
    have hmem := importMany_cache_false_fetch self n st ids true vds st1 tr1 hext hvds
    rw [htr]
    exact List.mem_append_left tr2 hmem

/-- C10: `importFromLanes` passes `cache = false` into multi-version
import, so every externally-owned identifier referenced by the fetched
lanes is carried in a remote component fetch even when a record for it
already exists in the local store. -/
theorem claimC10_lanes_cache_disabled : ∀ (self : String) (n : Nat) (st : St) (laneIds : List RemoteLaneId)
    (laneBatch : Batch) (restScript : List (Except Err Batch))
    (r : List Lane) (st2 : St) (tr : List Event),
    st.script = .ok laneBatch :: restScript →
    (∀ i ∈ (uniqFirst ((laneBatch.lanes.map Lane.toBitIds).flatten)).filter
        (fun i => !(i.isLocal self)), (st.store.findComp i).isSome = true) →
    ((uniqFirst ((laneBatch.lanes.map Lane.toBitIds).flatten)).filter
        (fun i => !(i.isLocal self))).isEmpty = false →
    importFromLanes self n st laneIds = some (.ok (r, st2, tr)) →
    Event.fetch (groupByScopeName ((uniqFirst ((laneBatch.lanes.map Lane.toBitIds).flatten)).filter
        (fun i => !(i.isLocal self)))) .component ∈ tr := by
  intro self n st laneIds laneBatch restScript r st2 tr hscript hcached hext h
  unfold importFromLanes at h
  obtain ⟨lanes, st1, trL, trR, hLanes, hRest, htr⟩ := mbind_ok.mp h
  have hImp : importLanes st laneIds
      = some (.ok (laneBatch.lanes,
          ⟨laneBatch.lanes.foldl syncWithLaneObject st.store, restScript⟩,
          [Event.fetch (groupLaneIdsByScopeName laneIds) .lane]
            ++ laneBatch.lanes.map (fun l => Event.laneSync l.scope l.name))) := by
    unfold importLanes
    rw [show fetchRemote (groupLaneIdsByScopeName laneIds) .lane st
        = some (.ok (laneBatch, ⟨st.store, restScript⟩,
            [Event.fetch (groupLaneIdsByScopeName laneIds) .lane])) from by
      simp [fetchRemote, hscript]]
    simp [mbind]
  rw [hImp] at hLanes
  simp only [Option.some.injEq, Except.ok.injEq, Prod.mk.injEq] at hLanes
  obtain ⟨hlv, hst1, htrL⟩ := hLanes
  obtain ⟨w, stw, trI, trT, hIMAV, hret, htrR⟩ := mbind_ok.mp hRest
  rw [← hlv] at hIMAV
  rw [← hst1] at hIMAV
  have hmem := imav_cache_false_fetch self n
    ⟨laneBatch.lanes.foldl syncWithLaneObject st.store, restScript⟩
    (uniqFirst ((laneBatch.lanes.map Lane.toBitIds).flatten)) false w stw trI hext hIMAV
  rw [htr, htrR]
  exact List.mem_append_right trL (List.mem_append_left trT hmem)

/-- Witness for C1 at a concrete input: one external id, empty store,
remote script exhausted (always-empty batches). -/
theorem claimC1_witness :
    fxStC1.script = [] ∧ fxStC1.store.findComp fxAId = none
    ∧ run "me" 7 (.getExternalMany [fxAId] true true) fxStC1 = none :=
  ⟨rfl, rfl, claimC1_no_progress_diverges "me" 7 fxStC1 [fxAId] true true rfl
    ⟨fxAId, by decide, rfl⟩⟩

/-- Witness for C2: a single local id resolved from a concrete store. -/
theorem claimC2_witness :
    (removeNils [some fxXId]).Nodup
    ∧ ∃ r st2 tr, run "me" 5 (.importMany [some fxXId] true true) fxStC2
        = some (.ok (r, st2, tr))
      ∧ r.length = (removeNils [some fxXId]).length :=
  ⟨by decide, _, _, _, rfl,
    claimC2_coverage_count.2 "me" 5 fxStC2 [some fxXId] true true _ _ _ (by decide) rfl⟩

/-- Counterexample refuting C3 as stated: a purely local identifier set
whose component's flattened dependency list contains an external id; the
run completes and its trace contains a remote fetch. -/
theorem claimC3_counterexample :
    ((removeNils [some fxXId]).all (fun i => i.isLocal "me")) = true
    ∧ isOk (run "me" 8 (.importMany [some fxXId] true true) fxStC3) = true
    ∧ (traceOf (run "me" 8 (.importMany [some fxXId] true true) fxStC3)).any Event.isFetch
        = true := by
  refine ⟨by decide, by decide, by decide⟩

/-- Witness for the amended C3 at a concrete all-local world. -/
theorem claimC3_witness :
    storeAllLocal "me" fxStC3w.store = true
    ∧ (∀ i ∈ removeNils [some fxXId], i.isLocal "me" = true)
    ∧ (traceOf (run "me" 8 (.importMany [some fxXId] true true) fxStC3w)).all
        (fun e => !e.isFetch) = true :=
  ⟨by decide, by decide,
    claimC3_local_only_no_fetch_amended.1 "me" 8 fxStC3w [some fxXId] true true (by decide) (by decide)⟩

/-- Counterexample refuting C4 as stated: the stored flattened runtime
list is [external a, local y], but the returned runtime array is ordered
[y, a] — the original order is not preserved when the list mixes local and
external owners. -/
theorem claimC4_counterexample :
    (fxStC4.store.findVer ("me", "x", "0.0.1")).map (fun v => v.flattenedDependencies)
        = some [fxAId, fxYId]
    ∧ isOk (run "me" 6 (.componentToVersionDependencies fxCompX fxXId) fxStC4) = true
    ∧ (valOf (run "me" 6 (.componentToVersionDependencies fxCompX fxXId) fxStC4)
        fxDfltVD).dependencies.map ComponentVersion.id = [fxYId, fxAId]
    ∧ ¬([fxYId, fxAId] = [fxAId, fxYId]) := by
  refine ⟨by decide, by decide, by decide, by decide⟩

/-- Witness for the amended C4 at the mixed-ownership fixture. -/
theorem claimC4_witness :
    (fxCompX.toComponentVersion fxXId.version).getVersion fxStC4.store = some fxVerMixed
    ∧ allConcrete fxVerMixed.flattenedDependencies = true
    ∧ ∃ r st2 tr, run "me" 6 (.componentToVersionDependencies fxCompX fxXId) fxStC4
        = some (.ok (r, st2, tr))
      ∧ (r.dependencies.map ComponentVersion.id
          = fxVerMixed.flattenedDependencies.filter (fun i => i.isLocal "me")
            ++ fxVerMixed.flattenedDependencies.filter (fun i => !(i.isLocal "me"))
        ∧ List.Perm (r.dependencies.map ComponentVersion.id)
            fxVerMixed.flattenedDependencies) :=
  ⟨rfl, by decide, _, _, _, rfl,
    (claimC4_closure_order_amended "me" 5 fxStC4 fxCompX fxXId fxVerMixed _ _ _ rfl
      (by decide) (by decide) (by decide) rfl).1⟩

/-- Counterexample refuting C5 as stated: an `importMany` call with
`persist = false` whose remote satisfies the residual only over two
round-trips; the write-back flags observed are [false, true] — the second
round-trip wrote with persistence enabled. -/
theorem claimC5_counterexample :
    isOk (run "me" 10 (.importMany [some fxAId, some fxBId] true false) fxStC5) = true
    ∧ writesOf (traceOf (run "me" 10 (.importMany [some fxAId, some fxBId] true false) fxStC5))
        = [false, true] := by
  refine ⟨by decide, by decide⟩

/-- Witness for the amended C5 on the two-round fixture. -/
theorem claimC5_witness :
    (leftDefs (fxStC5.store.getMany [fxAId, fxBId]) true).isEmpty = false
    ∧ ∃ r st2 tr, run "me" 10 (.getExternalMany [fxAId, fxBId] true false) fxStC5
        = some (.ok (r, st2, tr))
      ∧ ∃ tr2, tr = .fetch (groupByScopeName ((leftDefs (fxStC5.store.getMany [fxAId, fxBId])
            true).map (fun d => d.id))) .component :: .write false [fxAId, fxBId] :: tr2
        ∧ (writesOf tr2).all (fun b => b) = true :=
  ⟨by decide, _, _, _, rfl,
    claimC5_persist_flag_amended "me" 9 fxStC5 [fxAId, fxBId] true false _ _ _ (by decide) rfl⟩

/-- Witness for C6 at a concrete external record with missing version
content. -/
theorem claimC6_witness :
    (fxCompA.toComponentVersion fxAId.version).getVersion fxStC6.store = none
    ∧ ((run "me" 6 (.componentToVersionDependencies fxCompA fxAId) fxStC6
          = run "me" 5 (.getExternal fxAId false) fxStC6)
      ∧ (isOk (run "me" 5 (.getExternal fxAId false) fxStC6) = true →
          (traceOf (run "me" 5 (.getExternal fxAId false) fxStC6)).head?
            = some (.fetch (groupByScopeName [fxAId]) .component))) :=
  ⟨rfl, (claimC6_missing_version_content "me" 5 fxStC6 fxCompA fxAId rfl).2 (by decide)⟩

/-- Witness for C7: a remote that fails with `RemoteScopeNotFound`, passed
through unwrapped. -/
theorem claimC7_witness :
    run "me" 3 (.importMany [some fxAId] true true) fxStC7
      = some (.error (.remoteScopeNotFound "r"))
    ∧ importDependencies "me" 3 fxStC7 [some fxAId]
      = some (.error (.remoteScopeNotFound "r")) :=
  ⟨rfl, (claimC7_dependency_error_wrapping "me" 3 fxStC7 [some fxAId] (.remoteScopeNotFound "r") rfl).1 (by decide)⟩

/-- Counterexample refuting C8 as stated: a closure resolved at the head
version `0.0.2`; the expanded set nevertheless contains the id at version
`0.0.2`, because the head pointer is pushed without excluding the version
already resolved. -/
theorem claimC8_counterexample :
    fxVdC8.component.id = ⟨"me", "x", some "0.0.2"⟩
    ∧ (⟨"me", "x", some "0.0.2"⟩ : BitId) ∈ expandedIds [fxVdC8] := by
  refine ⟨by decide, by decide⟩

/-- Witness for C9: two scopes, duplicate and locally-present hashes
filtered out, one fetch and one persist. -/
theorem claimC9_witness :
    missingGroups fxStC9.store fxGroupedC9 = [("r", ["h1"])]
    ∧ (∃ u st2 tr, importManyObjects fxStC9 fxGroupedC9 = some (.ok (u, st2, tr))
        ∧ ∃ objs, tr = [.fetch (missingGroups fxStC9.store fxGroupedC9) .obj,
            .addMany objs, .persistCall]
          ∧ st2.store.raws = fxStC9.store.raws ++ objs)
    ∧ (∀ s hs, (s, hs) ∈ missingGroups fxStC9.store fxGroupedC9 →
        hs.Nodup ∧ ∀ h ∈ hs, fxStC9.store.raws.contains h = false) :=
  ⟨by decide, ⟨_, _, _, rfl, (claimC9_import_objects fxStC9 fxGroupedC9).2.1 _ _ _ rfl (by decide)⟩,
    (claimC9_import_objects fxStC9 fxGroupedC9).2.2⟩

/-- Witness for C10: a lane referencing an external id whose record is
already cached; the forced component fetch still appears in the trace. -/
theorem claimC10_witness :
    fxStC10.script = .ok ⟨[], [], [fxLane], []⟩
        :: [.ok ⟨[fxCompA], [(("r", "a", "0.0.1"), fxVerEmpty)], [], []⟩]
    ∧ (∀ i ∈ (uniqFirst (([fxLane].map Lane.toBitIds).flatten)).filter
          (fun i => !(i.isLocal "me")), (fxStC10.store.findComp i).isSome = true)
    ∧ ∃ r st2 tr, importFromLanes "me" 8 fxStC10 [⟨"r", "dev"⟩] = some (.ok (r, st2, tr))
      ∧ Event.fetch (groupByScopeName ((uniqFirst ((((⟨[], [], [fxLane], []⟩ : Batch).lanes).map
          Lane.toBitIds).flatten)).filter (fun i => !(i.isLocal "me")))) .component ∈ tr :=
  ⟨rfl, by decide, _, _, _, rfl,
    claimC10_lanes_cache_disabled "me" 8 fxStC10 [⟨"r", "dev"⟩] ⟨[], [], [fxLane], []⟩
      [.ok ⟨[fxCompA], [(("r", "a", "0.0.1"), fxVerEmpty)], [], []⟩] _ _ _
      rfl (by decide) (by decide) rfl⟩
